import Mathlib

/-!
# The DAG editor of `merkledag/utils/utils.go`

A shallow embedding of the path-addressed Merkle-DAG editor (`Editor`, `addLink`,
`insertNodeAtPath`, `rmLink`, `Finalize`, `copyDag`) together with the parts of the
`merkledag` and `path` packages it calls, followed by theorems about its behaviour.

Go passes nodes by pointer and the node methods update their receiver.  The embedding
passes node values explicitly: every function that receives `root *dag.Node` returns the
value that object holds when the function returns, on the error paths as well.
-/

namespace dagutils

/-! ## Nodes -/

/-- Modelled from the spec: the `dag.Node` type is declared outside this file.  A node is
an ordered sequence of named links and an opaque payload.  The content identity of a node
is derived deterministically from links and payload; it is represented here by the node
value itself, so a link (`Name`, `Hash`) records the name and the identity of its target,
and two nodes have the same identity exactly when they are equal. -/
inductive Node where
  | mk (Links : List (String × Node)) (Data : List Nat) : Node

/-- The `Links` field of a node: pairs of link name and target identity. -/
def Node.Links : Node → List (String × Node)
  | .mk l _ => l

/-- The `Data` field of a node. -/
def Node.Data : Node → List Nat
  | .mk _ d => d

mutual
/-- Decision procedure for equality of nodes. -/
def Node.decEq : (a b : Node) → Decidable (a = b)
  | .mk l1 d1, .mk l2 d2 =>
    match Node.decEqLinks l1 l2 with
    | isTrue h1 =>
      if h2 : d1 = d2 then isTrue (by rw [h1, h2])
      else isFalse (fun h => h2 (by cases h; rfl))
    | isFalse h1 => isFalse (fun h => h1 (by cases h; rfl))
/-- Decision procedure for equality of link lists. -/
def Node.decEqLinks : (a b : List (String × Node)) → Decidable (a = b)
  | [], [] => isTrue rfl
  | [], _ :: _ => isFalse (fun h => by cases h)
  | _ :: _, [] => isFalse (fun h => by cases h)
  | (n1, t1) :: r1, (n2, t2) :: r2 =>
    if hn : n1 = n2 then
      match Node.decEq t1 t2 with
      | isTrue ht =>
        match Node.decEqLinks r1 r2 with
        | isTrue hr => isTrue (by rw [hn, ht, hr])
        | isFalse hr => isFalse (fun h => hr (by cases h; rfl))
      | isFalse ht => isFalse (fun h => ht (by cases h; rfl))
    else isFalse (fun h => hn (by cases h; rfl))
end

instance : DecidableEq Node := Node.decEq

/-- The errors the editor can return. -/
inductive Err where
  /-- `errors.New("cannot create link with no name!")` -/
  | noName
  /-- `dag.ErrLinkNotFound`: the node has no link of the requested name. -/
  | ErrLinkNotFound
  /-- `dag.ErrNotFound`: the requested content is absent. -/
  | ErrNotFound
  /-- Any other error reported by a store operation. -/
  | storeFailure
  /-- The error of a failed link construction (`AddNodeLinkClean`). -/
  | linkFailure
  /-- The run-time panic of `path[0]` on an empty slice. -/
  | indexOutOfRange
  deriving DecidableEq, Repr

/-- Modelled from the spec: `GetNodeLink`, the lookup of a link by name on a node
("look up the link by name on the current node"); the first link of that name. -/
def Node.GetNodeLink (n : Node) (name : String) : Option Node :=
  (n.Links.find? (fun l => decide (l.1 = name))).map Prod.snd

/-- Modelled from the spec: `RemoveNodeLink`, the node method behind
`RemoveLink(node, name) -> node' | NotFoundError`.  The receiver loses its links named
`name`; when it has none the method reports `ErrNotFound` (the source says of this
error "only option is ErrNotFound").  Returns the receiver after the call and the
error. -/
def Node.RemoveNodeLink (n : Node) (name : String) : Node × Option Err :=
  (.mk (n.Links.filter (fun l => decide (l.1 ≠ name))) n.Data,
   if n.Links.any (fun l => decide (l.1 = name)) then none else some Err.ErrNotFound)

/-- Modelled from the spec: `AddNodeLinkClean`, the node method behind
`AddLink(node, name, targetNode) -> node'` (replace-semantics on name collision): the
receiver gets a link `name` to the identity of `that`, in place of any link of that name.
The source checks an error result; `linkErr that` says that building the link to `that`
fails, in which case the receiver is left as it is.  Returns the receiver after the call
and the error. -/
def Node.AddNodeLinkClean (linkErr : Node → Bool) (n : Node) (name : String) (that : Node) :
    Node × Option Err :=
  if linkErr that then (n, some Err.linkFailure)
  else (.mk (n.Links.filter (fun l => decide (l.1 ≠ name)) ++ [(name, that)]) n.Data, none)

/-! ## Node stores -/

/-- Modelled from the spec: the `dag.DAGService` interface (Node Store interface), a
content-addressed store of nodes.  `has` is the set of identities held; `addFails` and
`getFails` say for which nodes `Add` and `Get` report a failure of the store other than
absence. -/
structure DAGService where
  has : Node → Bool
  addFails : Node → Bool
  getFails : Node → Bool

/-- The store that holds nothing and never fails; it also stands for a `nil` source in
calls that do not consult the source. -/
def DAGService.empty : DAGService :=
  ⟨fun _ => false, fun _ => false, fun _ => false⟩

/-- Modelled from the spec: `Add(node) -> identity`, idempotent; the store afterwards and
the error. -/
def DAGService.Add (s : DAGService) (n : Node) : DAGService × Option Err :=
  if s.addFails n then (s, some Err.storeFailure)
  else ({ s with has := fun m => if m = n then true else s.has m }, none)

/-- Modelled from the spec: `Get(identity) -> node | NotFoundError`. -/
def DAGService.Get (s : DAGService) (k : Node) : Except Err Node :=
  if s.getFails k then .error Err.storeFailure
  else if s.has k then .ok k
  else .error Err.ErrNotFound

/-- Modelled from the spec: `Remove(identity)`, best-effort delete of the node stored
under the identity of `n`; every caller discards its error, so only the store afterwards
is returned. -/
def DAGService.Remove (s : DAGService) (n : Node) : DAGService :=
  { s with has := fun m => if m = n then false else s.has m }

/-- Modelled from the spec: `GetLinkedNode`, link lookup by name followed by the fetch of
the target from the store: `ErrLinkNotFound` when the node has no link of that name,
otherwise the result of `Get`. -/
def Node.GetLinkedNode (n : Node) (serv : DAGService) (name : String) : Except Err Node :=
  match n.GetNodeLink name with
  | none => .error Err.ErrLinkNotFound
  | some k => serv.Get k

/-! ## Paths -/

/-- Splitting of a character list at every `/`; `cur` is the component being read,
reversed. -/
def splitAux : List Char → List Char → List String
  | [], cur => [String.mk cur.reverse]
  | c :: cs, cur =>
    if c = '/' then String.mk cur.reverse :: splitAux cs []
    else splitAux cs (c :: cur)

/-- Modelled from the spec: `path.SplitList`, the `/`-separated components of a path
string.  It returns no error, so empty components are part of its result. -/
def SplitList (pth : String) : List String :=
  splitAux pth.toList []

/-! ## The editor -/

/-- The `Editor` struct: the root node, the staging overlay `tmp` and the source store
`src` (`DAGService.empty` for `nil`). -/
structure Editor where
  root : Node
  tmp : DAGService
  src : DAGService

/-- `NewMemoryDagService`: a store that holds nothing yet.  The block store behind it is
declared outside this file, so the nodes on which its `Add` and `Get` report a failure
are parameters. -/
def NewMemoryDagService (addFails getFails : Node → Bool) : DAGService :=
  ⟨fun _ => false, addFails, getFails⟩

/-- `NewDagEditor`: the root, a fresh overlay and the source store. -/
def NewDagEditor (addFails getFails : Node → Bool) (root : Node) (source : DAGService) :
    Editor :=
  ⟨root, NewMemoryDagService addFails getFails, source⟩

/-- `Editor.GetNode`: a copy of the root. -/
def Editor.GetNode (e : Editor) : Node := e.root

/-- `Editor.GetDagService`. -/
def Editor.GetDagService (e : Editor) : DAGService := e.tmp

/-- Outcome of `addLink`, `insertNodeAtPath` and `rmLink`.  `root` is the value held,
when the call returns, by the node object that was passed as `root`; when `err` is `none`
this is also the returned node (the functions return the pointer they were given).
`tmp` is the overlay and `calls` the number of invocations of the `create` callback so
far. -/
structure Res where
  root : Node
  tmp : DAGService
  calls : Nat
  err : Option Err

/-- The function `addLink`. -/
def addLink (linkErr : Node → Bool) (ds : DAGService) (calls : Nat) (root : Node)
    (childname : String) (childnd : Node) : Res :=
  if childname = "" then ⟨root, ds, calls, some Err.noName⟩
  else
    -- ensure that the node we are adding is in the dagservice
    match ds.Add childnd with
    | (ds1, some err) => ⟨root, ds1, calls, some err⟩
    | (ds1, none) =>
      let ds2 := ds1.Remove root
      -- ensure no link with that name already exists
      let root1 := (root.RemoveNodeLink childname).1
      match root1.AddNodeLinkClean linkErr childname childnd with
      | (root2, some err) => ⟨root2, ds2, calls, some err⟩
      | (root2, none) =>
        match ds2.Add root2 with
        | (ds3, some err) => ⟨root2, ds3, calls, some err⟩
        | (ds3, none) => ⟨root2, ds3, calls, none⟩

/-- The tail of `insertNodeAtPath` and of `rmLink` after the recursive call returned the
rebuilt child `ndprime`: evict the old version of `root`, relink `name`, store the new
version. -/
def relink (linkErr : Node → Bool) (tmp : DAGService) (calls : Nat) (root : Node)
    (name : String) (ndprime : Node) : Res :=
  let tmp1 := tmp.Remove root
  let root1 := (root.RemoveNodeLink name).1
  match root1.AddNodeLinkClean linkErr name ndprime with
  | (root2, some err) => ⟨root2, tmp1, calls, some err⟩
  | (root2, none) =>
    match tmp1.Add root2 with
    | (tmp2, some err) => ⟨root2, tmp2, calls, some err⟩
    | (tmp2, none) => ⟨root2, tmp2, calls, none⟩

/-- Child resolution of `insertNodeAtPath`: the overlay first; on `ErrLinkNotFound` with a
callback the callback's node (`create k` is the node returned by invocation number `k`);
on `ErrNotFound` the source store.  Returns the child or the error, and the number of
callback invocations. -/
def insertChild (tmp src : DAGService) (create : Option (Nat → Node)) (calls : Nat)
    (root : Node) (name : String) : Except Err Node × Nat :=
  match root.GetLinkedNode tmp name with
  | .ok nd => (.ok nd, calls)
  | .error err =>
    -- if 'create' is true, we create directories on the way down as needed
    match create with
    | some f =>
      if err = Err.ErrLinkNotFound then (.ok (f calls), calls + 1)
      else if err = Err.ErrNotFound then (root.GetLinkedNode src name, calls)
      else (.error err, calls)
    | none =>
      if err = Err.ErrNotFound then (root.GetLinkedNode src name, calls)
      else (.error err, calls)

/-- The method `Editor.insertNodeAtPath`; `tmp` and `src` are the fields of the editor. -/
def insertNodeAtPath (linkErr : Node → Bool) (src : DAGService)
    (create : Option (Nat → Node)) (toinsert : Node) :
    DAGService → Nat → Node → List String → Res
  | tmp, calls, root, [] => ⟨root, tmp, calls, some Err.indexOutOfRange⟩
  | tmp, calls, root, [name] => addLink linkErr tmp calls root name toinsert
  | tmp, calls, root, name :: next :: rest =>
    match insertChild tmp src create calls root name with
    | (.error err, calls1) => ⟨root, tmp, calls1, some err⟩
    | (.ok nd, calls1) =>
      let r := insertNodeAtPath linkErr src create toinsert tmp calls1 nd (next :: rest)
      match r.err with
      | some err => ⟨root, r.tmp, r.calls, some err⟩
      | none => relink linkErr r.tmp r.calls root name r.root

/-- The method `Editor.InsertNodeAtPath`.  The `root` argument of `insertNodeAtPath` is
the object `e.root` points to, and the node the method returns is that same object: after
the call the editor's root holds the value `r.root` of that object, on the error return
(where `e.root` is not assigned) as after `e.root = nd`.  Returns the editor afterwards,
the number of callback invocations and the error. -/
def Editor.InsertNodeAtPath (linkErr : Node → Bool) (e : Editor) (pth : String)
    (toinsert : Node) (create : Option (Nat → Node)) : Editor × Nat × Option Err :=
  let splpath := SplitList pth
  let r := insertNodeAtPath linkErr e.src create toinsert e.tmp 0 e.root splpath
  match r.err with
  | some err => (⟨r.root, r.tmp, e.src⟩, r.calls, some err)
  | none => (⟨r.root, r.tmp, e.src⟩, r.calls, none)

/-- Child resolution of `rmLink`: the overlay, and the source store when the overlay
reports `ErrNotFound`. -/
def rmChild (tmp src : DAGService) (root : Node) (name : String) : Except Err Node :=
  match root.GetLinkedNode tmp name with
  | .ok nd => .ok nd
  | .error err =>
    if err = Err.ErrNotFound then root.GetLinkedNode src name else .error err

/-- The method `Editor.rmLink`.  It has no callback; the `calls` field of its outcome
is `0`. -/
def rmLink (linkErr : Node → Bool) (src : DAGService) :
    DAGService → Node → List String → Res
  | tmp, root, [] => ⟨root, tmp, 0, some Err.indexOutOfRange⟩
  | tmp, root, [name] =>
    -- base case, remove node in question
    match root.RemoveNodeLink name with
    | (root1, some err) => ⟨root1, tmp, 0, some err⟩
    | (root1, none) =>
      match tmp.Add root1 with
      | (tmp1, some err) => ⟨root1, tmp1, 0, some err⟩
      | (tmp1, none) => ⟨root1, tmp1, 0, none⟩
  | tmp, root, name :: next :: rest =>
    -- search for node in both tmp dagstore and source dagstore
    match rmChild tmp src root name with
    | .error err => ⟨root, tmp, 0, some err⟩
    | .ok nd =>
      let r := rmLink linkErr src tmp nd (next :: rest)
      match r.err with
      | some err => ⟨root, r.tmp, 0, some err⟩
      | none => relink linkErr r.tmp 0 root name r.root

/-- The method `Editor.RmLink`; as for `InsertNodeAtPath`, the editor's root is the
object `rmLink` worked on. -/
def Editor.RmLink (linkErr : Node → Bool) (e : Editor) (pth : String) :
    Editor × Option Err :=
  let splpath := SplitList pth
  let r := rmLink linkErr e.src e.tmp e.root splpath
  match r.err with
  | some err => (⟨r.root, r.tmp, e.src⟩, some err)
  | none => (⟨r.root, r.tmp, e.src⟩, none)

/-- Outcome of `copyDag` and `Finalize`: the target store after the call and the
error. -/
structure CopyRes where
  target : DAGService
  err : Option Err

mutual
/-- The function `copyDag`: store the node in the target store `tgt`, then copy every
child that the store `frm` can fetch.  The node `Get` returns for the identity `k` of a
link is the node of that identity, `k` itself (`Get_ok`), so the recursive call runs on
the link target. -/
def copyDag (frm : DAGService) : Node → DAGService → CopyRes
  | .mk links data, tgt =>
    match tgt.Add (.mk links data) with
    | (tgt1, some err) => ⟨tgt1, some err⟩
    | (tgt1, none) => copyLinks frm links tgt1
/-- The loop `for _, lnk := range nd.Links` of `copyDag`. -/
def copyLinks (frm : DAGService) : List (String × Node) → DAGService → CopyRes
  | [], tgt => ⟨tgt, none⟩
  | (_, k) :: rest, tgt =>
    match frm.Get k with
    | .error err =>
      -- not found means we didnt modify it, and it should
      -- already be in the target datastore
      if err = Err.ErrNotFound then copyLinks frm rest tgt
      else ⟨tgt, some err⟩
    | .ok _ =>
      match copyDag frm k tgt with
      | ⟨tgt1, some err⟩ => ⟨tgt1, some err⟩
      | ⟨tgt1, none⟩ => copyLinks frm rest tgt1
end

/-- The method `Editor.Finalize`: the returned node, and the target store and error of
`copyDag`.  The editor is left as it is. -/
def Editor.Finalize (e : Editor) (ds : DAGService) : Node × CopyRes :=
  let nd := e.GetNode
  (nd, copyDag e.tmp nd ds)

/-- `Finalize` called with the editor's own source store as its argument, as in
`NewDagEditor(root, serv)` followed by `e.Finalize(serv)`: `ds` and `e.src` are one
store, so the source store of the editor afterwards is the target of the copy.  Returns
the editor afterwards, the returned node and the error. -/
def Editor.FinalizeIntoSource (e : Editor) : Editor × Node × Option Err :=
  let r := e.Finalize e.src
  (⟨e.root, e.tmp, r.2.target⟩, r.1, r.2.err)

/-! ## Observations used to state the properties -/

/-- A node can be fetched from the staging overlay or, when the overlay lacks it, from
the source store. -/
def present (tmp src : DAGService) (n : Node) : Bool :=
  tmp.has n || src.has n

/-- Walk the components of a path from a node, fetching each linked child from the
overlay first and from the source store when the overlay lacks it. -/
def walk (tmp src : DAGService) : Node → List String → Option Node
  | n, [] => some n
  | n, name :: rest =>
    match n.GetNodeLink name with
    | none => none
    | some k => if present tmp src k then walk tmp src k rest else none

/-- Follow the links named by a path from a node, by identity, without any store. -/
def follow : Node → List String → Option Node
  | n, [] => some n
  | n, name :: rest =>
    match n.GetNodeLink name with
    | none => none
    | some k => follow k rest

/-- The descent along a path through existing links: every component resolved by
`rmChild`, that is, by a link of that name whose target is fetched from the overlay or,
on `ErrNotFound`, from the source store.  `insertNodeAtPath` resolves a component whose
link exists in the same way. -/
def descend (tmp src : DAGService) : Node → List String → Except Err Node
  | n, [] => .ok n
  | n, name :: rest =>
    match rmChild tmp src n name with
    | .error err => .error err
    | .ok k => descend tmp src k rest

mutual
/-- The nodes reachable from a node through chains of links whose targets are all held
by the store `frm`, the node itself included. -/
def reach (frm : DAGService) : Node → List Node
  | .mk links data => .mk links data :: reachLinks frm links
/-- The nodes reachable through the links of a list that `frm` holds. -/
def reachLinks (frm : DAGService) : List (String × Node) → List Node
  | [] => []
  | (_, k) :: rest =>
    if frm.has k then reach frm k ++ reachLinks frm rest else reachLinks frm rest
end

mutual
/-- All nodes reachable from a node by following links, the node itself included. -/
def descendants : Node → List Node
  | .mk links data => .mk links data :: descendantsLinks links
/-- All nodes reachable through the links of a list. -/
def descendantsLinks : List (String × Node) → List Node
  | [] => []
  | (_, k) :: rest => descendants k ++ descendantsLinks rest
end

/-- Every link followed during the descent of `insertNodeAtPath` (or of `rmLink`, for
which `create` is `none`) along a path has its target in the overlay: at every non-final
component, a link of that name points at a node the overlay holds; where the link is
absent the descent ends or goes on in the callback's node. -/
def linksInOverlay (tmp : DAGService) (create : Option (Nat → Node)) :
    Nat → Node → List String → Bool
  | _, _, [] => true
  | _, _, [_] => true
  | calls, n, name :: next :: rest =>
    match n.GetNodeLink name with
    | some k => tmp.has k && linksInOverlay tmp create calls k (next :: rest)
    | none =>
      match create with
      | some f => linksInOverlay tmp create (calls + 1) (f calls) (next :: rest)
      | none => true

/-- The identities looked up during the descent of `insertNodeAtPath` (or of `rmLink`,
for which `create` is `none`) along a path: at every non-final component the target of
the link of that name; where the link is absent the descent ends or goes on in the
callback's node.  These are the only identities the descent can ask the source store
for. -/
def pathTargets (create : Option (Nat → Node)) : Nat → Node → List String → List Node
  | _, _, [] => []
  | _, _, [_] => []
  | calls, n, name :: next :: rest =>
    match n.GetNodeLink name with
    | some k => k :: pathTargets create calls k (next :: rest)
    | none =>
      match create with
      | some f => pathTargets create (calls + 1) (f calls) (next :: rest)
      | none => []

/-- What a successful copy does to the target: exactly the nodes of `added` are added,
the failure behaviour of the target is as before, and no lookup on a link of a copied
node failed. -/
def CopiedExactly (frm tgt : DAGService) (r : CopyRes) (added : List Node) : Prop :=
  (∀ m, r.target.has m = (tgt.has m || decide (m ∈ added)))
    ∧ r.target.addFails = tgt.addFails
    ∧ r.target.getFails = tgt.getFails
    ∧ (∀ m ∈ added, ∀ l ∈ m.Links, frm.getFails l.2 = false)

/-- Link construction that never fails. -/
def linkOk : Node → Bool := fun _ => false

/-- A store operation that never fails. -/
def noFail : Node → Bool := fun _ => false

/-- The empty node. -/
def emptyNode : Node := .mk [] []

/-- A leaf node with a payload. -/
def leafNode : Node := .mk [] [1]

/-- A directory node whose only entry `a` is the empty node. -/
def dirA : Node := .mk [("a", emptyNode)] []

/-- A directory node with the entry `a/b` leading to `leafNode`. -/
def dirAB : Node := .mk [("a", .mk [("b", leafNode)] [])] []

/-- A store that holds exactly the node `n` and never fails. -/
def storeOf (n : Node) : DAGService := ⟨fun m => decide (m = n), noFail, noFail⟩

/-- `Add` fails on exactly the node `n`. -/
def addFailsOn (n : Node) : Node → Bool := fun m => decide (m = n)

/-- A directory node whose only entry `x` is `leafNode`. -/
def dirX : Node := .mk [("x", leafNode)] []

/-- A store that holds exactly the nodes of a list and never fails. -/
def storeOfList (l : List Node) : DAGService := ⟨fun m => decide (m ∈ l), noFail, noFail⟩

mutual
/-- Number of constructors of a node, a measure that decreases along every link. -/
def Node.weight : Node → Nat
  | .mk l _ => 1 + Node.weightLinks l
/-- Total weight of a list of links. -/
def Node.weightLinks : List (String × Node) → Nat
  | [] => 0
  | (_, t) :: r => 1 + Node.weight t + Node.weightLinks r
end

/-! ## Auxiliary facts -/

theorem weightLinks_append (l1 l2 : List (String × Node)) :
    Node.weightLinks (l1 ++ l2) = Node.weightLinks l1 + Node.weightLinks l2 := by
  induction l1 with
  | nil => simp [Node.weightLinks]
  | cons a l ih =>
    obtain ⟨c, t⟩ := a
    simp [Node.weightLinks, ih]
    omega

theorem weightLinks_filter_le (p : String × Node → Bool) (l : List (String × Node)) :
    Node.weightLinks (l.filter p) ≤ Node.weightLinks l := by
  induction l with
  | nil => simp [Node.weightLinks]
  | cons a l ih =>
    obtain ⟨c, t⟩ := a
    by_cases h : p (c, t) = true
    · simp [List.filter_cons, h, Node.weightLinks]
      omega
    · simp [List.filter_cons, h, Node.weightLinks]
      omega

theorem weightLinks_filter_mem (name : String) (k : Node) (l : List (String × Node))
    (h : (name, k) ∈ l) :
    Node.weightLinks (l.filter (fun x => decide (x.1 ≠ name))) + Node.weight k + 1
      ≤ Node.weightLinks l := by
  induction l with
  | nil => simp at h
  | cons a l ih =>
    obtain ⟨c, t⟩ := a
    rcases List.mem_cons.mp h with h1 | h1
    · cases h1
      have := weightLinks_filter_le (fun x => decide (x.1 ≠ name)) l
      simp [List.filter_cons, Node.weightLinks]
      simp at this
      omega
    · have := ih h1
      by_cases hc : c = name
      · simp [List.filter_cons, hc, Node.weightLinks]
        simp at this
        omega
      · simp [List.filter_cons, hc, Node.weightLinks]
        simp at this
        omega

theorem getNodeLink_mem (n : Node) (name : String) (k : Node)
    (h : n.GetNodeLink name = some k) : (name, k) ∈ n.Links := by
  unfold Node.GetNodeLink at h
  rcases hf : n.Links.find? (fun l => decide (l.1 = name)) with _ | ⟨c, t⟩
  · simp [hf] at h
  · simp [hf] at h
    have h1 := List.find?_some hf
    have h2 := List.mem_of_find?_eq_some hf
    simp at h1
    subst h1; subst h
    exact h2

theorem getNodeLink_weight (n : Node) (name : String) (k : Node)
    (h : n.GetNodeLink name = some k) : k.weight < n.weight := by
  have hm := getNodeLink_mem n name k h
  have := weightLinks_filter_mem name k n.Links hm
  cases n with
  | mk l d =>
    simp [Node.Links] at this
    simp [Node.weight]
    omega


theorem getNodeLink_relinked (l : List (String × Node)) (d : List Nat) (name : String)
    (k : Node) :
    (Node.mk (l.filter (fun x => decide (x.1 ≠ name)) ++ [(name, k)]) d).GetNodeLink name
      = some k := by
  unfold Node.GetNodeLink
  simp only [Node.Links]
  rw [List.find?_append]
  have h : (l.filter (fun x => decide (x.1 ≠ name))).find? (fun x => decide (x.1 = name))
      = none := by
    rw [List.find?_eq_none]
    intro x hx
    have := (List.mem_filter.mp hx).2
    simpa using this
  rw [h]
  simp

theorem relink_ok (linkErr : Node → Bool) (tmp : DAGService) (calls : Nat) (root : Node)
    (name : String) (nd : Node) (h : (relink linkErr tmp calls root name nd).err = none) :
    (relink linkErr tmp calls root name nd).root
        = .mk (root.Links.filter (fun x => decide (x.1 ≠ name)) ++ [(name, nd)]) root.Data
      ∧ (relink linkErr tmp calls root name nd).tmp.has
        = (fun m => if m = (relink linkErr tmp calls root name nd).root then true
            else if m = root then false else tmp.has m)
      ∧ (relink linkErr tmp calls root name nd).calls = calls := by
  by_cases h1 : linkErr nd = true
  · simp [relink, Node.AddNodeLinkClean, h1] at h
  · by_cases h2 : tmp.addFails
        (.mk (root.Links.filter (fun x => decide (x.1 ≠ name)) ++ [(name, nd)]) root.Data)
        = true
    · simp [relink, Node.AddNodeLinkClean, Node.RemoveNodeLink, DAGService.Add,
        DAGService.Remove, Node.Links, Node.Data, h1] at h h2
      simp [h2] at h
    · simp [relink, Node.AddNodeLinkClean, Node.RemoveNodeLink, DAGService.Add,
        DAGService.Remove, Node.Links, Node.Data, h1] at h2 ⊢
      simp [h2]

theorem rmChild_ok (tmp src : DAGService) (root : Node) (name : String) (nd : Node)
    (h : rmChild tmp src root name = .ok nd) :
    root.GetNodeLink name = some nd ∧ present tmp src nd = true := by
  unfold rmChild Node.GetLinkedNode at h
  rcases hl : root.GetNodeLink name with _ | k
  · simp [hl] at h
  · simp only [hl, DAGService.Get, present] at h ⊢
    by_cases g1 : tmp.getFails k = true
    · simp [g1] at h
    · by_cases t1 : tmp.has k = true
      · simp [g1, t1] at h
        subst h
        simp [t1]
      · simp [g1, t1] at h
        by_cases g2 : src.getFails k = true
        · simp [g2] at h
        · by_cases t2 : src.has k = true
          · simp [g2, t2] at h
            subst h
            simp [t2]
          · simp [g2, t2] at h

theorem rmLink_cons (linkErr : Node → Bool) (src tmp : DAGService) (root : Node)
    (name : String) (q : List String) (hq : q ≠ []) :
    rmLink linkErr src tmp root (name :: q) =
      match rmChild tmp src root name with
      | .error err => ⟨root, tmp, 0, some err⟩
      | .ok nd =>
        match (rmLink linkErr src tmp nd q).err with
        | some err => ⟨root, (rmLink linkErr src tmp nd q).tmp, 0, some err⟩
        | none => relink linkErr (rmLink linkErr src tmp nd q).tmp 0 root name
            (rmLink linkErr src tmp nd q).root := by
  cases q with
  | nil => exact absurd rfl hq
  | cons a q => simp [rmLink]

theorem walk_congr (t1 t2 src : DAGService) :
    ∀ (p : List String) (n : Node),
      (∀ m, m.weight < n.weight → t1.has m = t2.has m) →
      walk t1 src n p = walk t2 src n p := by
  intro p
  induction p with
  | nil => intro n _; simp [walk]
  | cons name rest ih =>
    intro n h
    simp only [walk]
    rcases hl : n.GetNodeLink name with _ | k
    · simp
    · have hw := getNodeLink_weight n name k hl
      simp only [present, h k hw]
      rw [ih k (fun m hm => h m (by omega))]


theorem rmLink_single_ok (linkErr : Node → Bool) (src tmp : DAGService) (root : Node)
    (last : String) (h : (rmLink linkErr src tmp root [last]).err = none) :
    root.Links.any (fun l => decide (l.1 = last)) = true
      ∧ (rmLink linkErr src tmp root [last]).root
          = .mk (root.Links.filter (fun l => decide (l.1 ≠ last))) root.Data
      ∧ (rmLink linkErr src tmp root [last]).tmp.has
          = (fun m => if m = (rmLink linkErr src tmp root [last]).root then true
              else tmp.has m) := by
  by_cases h1 : root.Links.any (fun l => decide (l.1 = last)) = true
  · by_cases h2 : tmp.addFails
        (.mk (root.Links.filter (fun l => decide (l.1 ≠ last))) root.Data) = true
    · simp [rmLink, Node.RemoveNodeLink, DAGService.Add] at h h1 h2
      simp [h1, h2] at h
    · refine ⟨h1, ?_⟩
      simp [rmLink, Node.RemoveNodeLink, DAGService.Add] at h1 h2 ⊢
      simp [h1, h2]
  · simp [rmLink, Node.RemoveNodeLink] at h h1
    simp [h1] at h

theorem weight_removed (root : Node) (last : String)
    (h : root.Links.any (fun l => decide (l.1 = last)) = true) :
    (Node.mk (root.Links.filter (fun l => decide (l.1 ≠ last))) root.Data).weight
      < root.weight := by
  rw [List.any_eq_true] at h
  obtain ⟨⟨c, k⟩, hm, hc⟩ := h
  simp at hc
  subst hc
  have := weightLinks_filter_mem c k root.Links hm
  cases root with
  | mk l d =>
    simp [Node.Links] at this
    simp [Node.weight, Node.Links]
    omega

theorem weight_relinked (root : Node) (name : String) (k k2 : Node)
    (hl : root.GetNodeLink name = some k) (hk : k2.weight < k.weight) :
    (Node.mk (root.Links.filter (fun l => decide (l.1 ≠ name)) ++ [(name, k2)])
      root.Data).weight < root.weight := by
  have := weightLinks_filter_mem name k root.Links (getNodeLink_mem root name k hl)
  cases root with
  | mk l d =>
    simp [Node.Links] at this
    simp [Node.weight, Node.Links, weightLinks_append, Node.weightLinks]
    omega

theorem rmLink_spec (linkErr : Node → Bool) (src : DAGService) :
    ∀ (pre : List String) (last : String) (tmp : DAGService) (root : Node),
      (rmLink linkErr src tmp root (pre ++ [last])).err = none →
      (rmLink linkErr src tmp root (pre ++ [last])).root.weight < root.weight
      ∧ (rmLink linkErr src tmp root (pre ++ [last])).tmp.has
          (rmLink linkErr src tmp root (pre ++ [last])).root = true
      ∧ ∃ n, walk tmp src root pre = some n
          ∧ n.Links.any (fun l => decide (l.1 = last)) = true
          ∧ walk (rmLink linkErr src tmp root (pre ++ [last])).tmp src
              (rmLink linkErr src tmp root (pre ++ [last])).root pre
              = some (.mk (n.Links.filter (fun l => decide (l.1 ≠ last))) n.Data) := by
  intro pre
  induction pre with
  | nil =>
    intro last tmp root h
    obtain ⟨h1, h2, h3⟩ := rmLink_single_ok linkErr src tmp root last h
    simp only [List.nil_append] at h ⊢
    refine ⟨?_, ?_, root, by simp [walk], h1, ?_⟩
    · rw [h2]; exact weight_removed root last h1
    · rw [h3]; simp
    · simp [walk, h2]
  | cons a pre ih =>
    intro last tmp root h
    have hq : pre ++ [last] ≠ [] := by simp
    simp only [List.cons_append] at h ⊢
    rw [rmLink_cons linkErr src tmp root a (pre ++ [last]) hq] at h ⊢
    rcases hc : rmChild tmp src root a with err | nd
    · simp [hc] at h
    · simp only [hc] at h ⊢
      rcases he : (rmLink linkErr src tmp nd (pre ++ [last])).err with _ | err
      · simp only [he] at h ⊢
        obtain ⟨hw, hhas, n, hn1, hn2, hn3⟩ := ih last tmp nd he
        obtain ⟨hl, hp⟩ := rmChild_ok tmp src root a nd hc
        obtain ⟨r1, r2, _⟩ := relink_ok linkErr _ 0 root a _ h
        have hwr := weight_relinked root a nd _ hl hw
        have hwc := getNodeLink_weight _ a _
          (getNodeLink_relinked root.Links root.Data a
            (rmLink linkErr src tmp nd (pre ++ [last])).root)
        refine ⟨?_, ?_, n, ?_, hn2, ?_⟩
        · rw [r1]; exact hwr
        · rw [r2]; simp
        · simp [walk, hl, hp, hn1]
        · generalize (relink linkErr (rmLink linkErr src tmp nd (pre ++ [last])).tmp 0 root a
            (rmLink linkErr src tmp nd (pre ++ [last])).root) = R at r1 r2
          generalize (rmLink linkErr src tmp nd (pre ++ [last])) = r at hw hhas hn3 r1 r2 hwr hwc
          have hne1 : r.root ≠ root := by
            intro hEq
            rw [hEq] at hw
            have := getNodeLink_weight root a nd hl
            omega
          have hne2 : r.root ≠ R.root := by
            intro hEq
            rw [← r1, ← hEq] at hwc
            omega
          have hlk : R.root.GetNodeLink a = some r.root := by
            rw [r1]; exact getNodeLink_relinked _ _ _ _
          have hpres : present R.tmp src r.root = true := by
            simp [present, r2, hne1, hne2, hhas]
          have hcongr : walk R.tmp src r.root pre = walk r.tmp src r.root pre := by
            apply walk_congr
            intro m hm
            have hm1 : m ≠ R.root := by
              intro hEq
              rw [hEq, r1] at hm
              omega
            have hm2 : m ≠ root := by
              intro hEq
              rw [hEq] at hm
              have := getNodeLink_weight root a nd hl
              omega
            simp [r2, hm1, hm2]
          simp only [walk, hlk, hpres, if_true, hcongr, hn3]
      · simp [he] at h


theorem splitAux_ne_nil : ∀ (cs cur : List Char), splitAux cs cur ≠ [] := by
  intro cs
  induction cs with
  | nil => intro cur; simp [splitAux]
  | cons c cs ih =>
    intro cur
    by_cases h : c = '/'
    · simp [splitAux, h]
    · simp [splitAux, h, ih]

theorem splitAux_single : ∀ (cs cur : List Char), (∀ c ∈ cs, c ≠ '/') →
    splitAux cs cur = [String.mk (cur.reverse ++ cs)] := by
  intro cs
  induction cs with
  | nil => intro cur _; simp [splitAux]
  | cons c cs ih =>
    intro cur h
    have hc : c ≠ '/' := h c (List.mem_cons_self _ _)
    simp [splitAux, hc]
    rw [ih (c :: cur) (fun x hx => h x (List.mem_cons_of_mem _ hx))]
    simp

theorem SplitList_ne_nil (pth : String) : SplitList pth ≠ [] :=
  splitAux_ne_nil _ _

theorem SplitList_single (name : String) (h : ∀ c ∈ name.toList, c ≠ '/') :
    SplitList name = [name] := by
  unfold SplitList
  rw [splitAux_single _ _ h]
  simp

theorem addLink_ok (linkErr : Node → Bool) (ds : DAGService) (calls : Nat) (root : Node)
    (name : String) (X : Node) (h : (addLink linkErr ds calls root name X).err = none) :
    name ≠ ""
      ∧ (addLink linkErr ds calls root name X).root
        = .mk (root.Links.filter (fun x => decide (x.1 ≠ name)) ++ [(name, X)]) root.Data
      ∧ (addLink linkErr ds calls root name X).calls = calls := by
  by_cases h0 : name = ""
  · simp [addLink, h0] at h
  · by_cases h1 : ds.addFails X = true
    · simp [addLink, h0, DAGService.Add, h1] at h
    · by_cases h2 : linkErr X = true
      · simp [addLink, h0, DAGService.Add, h1, Node.AddNodeLinkClean, h2] at h
      · by_cases h3 : ds.addFails
            (.mk (root.Links.filter (fun x => decide (x.1 ≠ name)) ++ [(name, X)]) root.Data)
            = true
        · simp [addLink, h0, DAGService.Add, h1, Node.AddNodeLinkClean, h2,
            Node.RemoveNodeLink, DAGService.Remove, Node.Links, Node.Data] at h h3
          simp [h3] at h
        · refine ⟨h0, ?_⟩
          simp [addLink, h0, DAGService.Add, h1, Node.AddNodeLinkClean, h2,
            Node.RemoveNodeLink, DAGService.Remove, Node.Links, Node.Data] at h3 ⊢
          simp [h3]

theorem insertNodeAtPath_cons (linkErr : Node → Bool) (src : DAGService)
    (create : Option (Nat → Node)) (X : Node) (tmp : DAGService) (calls : Nat) (root : Node)
    (name : String) (q : List String) (hq : q ≠ []) :
    insertNodeAtPath linkErr src create X tmp calls root (name :: q) =
      match insertChild tmp src create calls root name with
      | (.error err, calls1) => ⟨root, tmp, calls1, some err⟩
      | (.ok nd, calls1) =>
        match (insertNodeAtPath linkErr src create X tmp calls1 nd q).err with
        | some err =>
          ⟨root, (insertNodeAtPath linkErr src create X tmp calls1 nd q).tmp,
            (insertNodeAtPath linkErr src create X tmp calls1 nd q).calls, some err⟩
        | none =>
          relink linkErr (insertNodeAtPath linkErr src create X tmp calls1 nd q).tmp
            (insertNodeAtPath linkErr src create X tmp calls1 nd q).calls root name
            (insertNodeAtPath linkErr src create X tmp calls1 nd q).root := by
  cases q with
  | nil => exact absurd rfl hq
  | cons a q => simp [insertNodeAtPath]

theorem insertChild_of_rmChild (tmp src : DAGService) (create : Option (Nat → Node))
    (calls : Nat) (root : Node) (name : String) (nd : Node)
    (h : rmChild tmp src root name = .ok nd) :
    insertChild tmp src create calls root name = (.ok nd, calls) := by
  unfold rmChild at h
  unfold insertChild
  rcases hg : root.GetLinkedNode tmp name with err | k
  · simp only [hg] at h ⊢
    by_cases he : err = Err.ErrNotFound
    · simp only [he, if_true] at h ⊢
      cases create <;> simp [h]
    · simp [he] at h
  · simp only [hg] at h ⊢
    simp at h
    simp [h]

theorem insertChild_none (tmp src : DAGService) (calls : Nat) (root : Node)
    (name : String) :
    insertChild tmp src none calls root name = (rmChild tmp src root name, calls) := by
  unfold rmChild insertChild
  rcases hg : root.GetLinkedNode tmp name with err | k
  · by_cases he : err = Err.ErrNotFound <;> simp [he]
  · simp

theorem insertChild_absent (tmp src : DAGService) (f : Nat → Node) (calls : Nat)
    (root : Node) (name : String) (h : root.GetNodeLink name = none) :
    insertChild tmp src (some f) calls root name = (.ok (f calls), calls + 1) := by
  simp [insertChild, Node.GetLinkedNode, h]

theorem insertChild_linked (tmp src : DAGService) (create : Option (Nat → Node))
    (calls : Nat) (root : Node) (name : String) (h : root.GetNodeLink name ≠ none) :
    (insertChild tmp src create calls root name).2 = calls := by
  rcases hl : root.GetNodeLink name with _ | k
  · exact absurd hl h
  · unfold insertChild Node.GetLinkedNode
    simp only [hl, DAGService.Get]
    by_cases g1 : tmp.getFails k = true
    · cases create <;> simp [g1]
    · by_cases t1 : tmp.has k = true
      · simp [g1, t1]
      · cases create <;> simp [g1, t1]

theorem insertChild_ok (tmp src : DAGService) (create : Option (Nat → Node))
    (calls calls1 : Nat) (root : Node) (name : String) (nd : Node)
    (h : insertChild tmp src create calls root name = (.ok nd, calls1)) :
    root.GetNodeLink name = some nd ∨ root.GetNodeLink name = none := by
  rcases hl : root.GetNodeLink name with _ | k
  · exact Or.inr rfl
  · left
    unfold insertChild Node.GetLinkedNode at h
    simp only [hl, DAGService.Get] at h
    by_cases g1 : tmp.getFails k = true
    · cases create <;> simp [g1] at h
    · by_cases t1 : tmp.has k = true
      · simp [g1, t1] at h
        rw [h.1]
      · by_cases g2 : src.getFails k = true
        · cases create <;> simp [g1, t1, g2] at h
        · by_cases t2 : src.has k = true
          · cases create <;> simp [g1, t1, g2, t2] at h <;> rw [h.1]
          · cases create <;> simp [g1, t1, g2, t2] at h

theorem follow_append (p q : List String) : ∀ (n : Node),
    follow n (p ++ q) = (follow n p).bind (fun m => follow m q) := by
  induction p with
  | nil => intro n; simp [follow]
  | cons c p ih =>
    intro n
    simp only [List.cons_append, follow]
    rcases n.GetNodeLink c with _ | k
    · simp
    · simp [ih]

theorem insert_follow (linkErr : Node → Bool) (src : DAGService)
    (create : Option (Nat → Node)) (X : Node) :
    ∀ (path : List String) (tmp : DAGService) (calls : Nat) (root : Node),
      (insertNodeAtPath linkErr src create X tmp calls root path).err = none →
      follow (insertNodeAtPath linkErr src create X tmp calls root path).root path
        = some X := by
  intro path
  induction path with
  | nil => intro tmp calls root h; simp [insertNodeAtPath] at h
  | cons c rest ih =>
    intro tmp calls root h
    by_cases hr : rest = []
    · subst hr
      simp only [insertNodeAtPath] at h ⊢
      obtain ⟨_, h2, _⟩ := addLink_ok linkErr tmp calls root c X h
      rw [h2]
      simp only [follow, getNodeLink_relinked]
    · rw [insertNodeAtPath_cons _ _ _ _ _ _ _ _ _ hr] at h ⊢
      rcases hc : insertChild tmp src create calls root c with ⟨res, calls1⟩
      rcases res with err | nd
      · simp [hc] at h
      · simp only [hc] at h ⊢
        rcases he : (insertNodeAtPath linkErr src create X tmp calls1 nd rest).err
          with _ | err
        · simp only [he] at h ⊢
          obtain ⟨r1, _, _⟩ := relink_ok linkErr _ _ root c _ h
          rw [r1]
          simp only [follow, getNodeLink_relinked]
          exact ih tmp calls1 nd he
        · simp [he] at h

theorem insert_changes (linkErr : Node → Bool) (src : DAGService)
    (create : Option (Nat → Node)) (X : Node) :
    ∀ (path : List String) (tmp : DAGService) (calls : Nat) (root : Node),
      (insertNodeAtPath linkErr src create X tmp calls root path).err = none →
      follow root path ≠ some X →
      ∀ p q, path = p ++ q → q ≠ [] →
        follow (insertNodeAtPath linkErr src create X tmp calls root path).root p
          ≠ follow root p := by
  intro path
  induction path with
  | nil => intro tmp calls root h; simp [insertNodeAtPath] at h
  | cons c rest ih =>
    intro tmp calls root h hX p q hpq hq
    have hfol := insert_follow linkErr src create X (c :: rest) tmp calls root h
    by_cases hr : rest = []
    · subst hr
      have hp : p = [] := by
        cases p with
        | nil => rfl
        | cons a p =>
          simp at hpq
          exact absurd hpq.2.2 hq
      subst hp
      simp only [insertNodeAtPath] at h hfol ⊢
      simp only [follow]
      intro hEq
      simp only [Option.some.injEq] at hEq
      rw [hEq] at hfol
      exact hX hfol
    · rw [insertNodeAtPath_cons _ _ _ _ _ _ _ _ _ hr] at h hfol ⊢
      rcases hc : insertChild tmp src create calls root c with ⟨res, calls1⟩
      rcases res with err | nd
      · simp [hc] at h
      · simp only [hc] at h hfol ⊢
        rcases he : (insertNodeAtPath linkErr src create X tmp calls1 nd rest).err
          with _ | err
        · simp only [he] at h hfol ⊢
          obtain ⟨r1, _, _⟩ := relink_ok linkErr _ _ root c _ h
          rw [r1] at hfol ⊢
          have hchild := insert_follow linkErr src create X rest tmp calls1 nd he
          cases p with
          | nil =>
            simp only [follow]
            intro hEq
            simp only [Option.some.injEq] at hEq
            have hl : root.GetNodeLink c
                = some (insertNodeAtPath linkErr src create X tmp calls1 nd rest).root := by
              rw [← hEq]; exact getNodeLink_relinked _ _ _ _
            rcases insertChild_ok tmp src create calls calls1 root c nd hc with h1 | h1
            · rw [h1] at hl
              simp only [Option.some.injEq] at hl
              have hX2 : follow nd rest ≠ some X := by
                intro hh
                apply hX
                simp [follow, h1, hh]
              have := ih tmp calls1 nd he hX2 [] rest (by simp) hr
              simp only [follow] at this
              exact this (by rw [← hl])
            · rw [h1] at hl
              simp at hl
          | cons a p =>
            simp only [List.cons_append, List.cons.injEq] at hpq
            obtain ⟨hca, hrest⟩ := hpq
            subst hca
            simp only [follow, getNodeLink_relinked]
            rcases insertChild_ok tmp src create calls calls1 root c nd hc with h1 | h1
            · simp only [h1]
              have hX2 : follow nd rest ≠ some X := by
                intro hh
                apply hX
                simp [follow, h1, hh]
              exact ih tmp calls1 nd he hX2 p q hrest hq
            · simp only [h1]
              have hchild2 :
                  (follow (insertNodeAtPath linkErr src create X tmp calls1 nd rest).root
                    p).bind (fun m => follow m q) = some X := by
                rw [← follow_append, ← hrest]
                exact hchild
              intro hEq
              rw [hEq] at hchild2
              simp at hchild2
        · simp [he] at h

theorem rmLink_weight (linkErr : Node → Bool) (src : DAGService) (path : List String)
    (tmp : DAGService) (root : Node) (h : (rmLink linkErr src tmp root path).err = none) :
    (rmLink linkErr src tmp root path).root.weight < root.weight := by
  have hne : path ≠ [] := by
    intro hp
    subst hp
    simp [rmLink] at h
  have hsplit := (List.dropLast_append_getLast hne).symm
  rw [hsplit] at h ⊢
  exact (rmLink_spec linkErr src _ _ tmp root h).1

theorem rm_changes (linkErr : Node → Bool) (src : DAGService) :
    ∀ (path : List String) (tmp : DAGService) (root : Node),
      (rmLink linkErr src tmp root path).err = none →
      ∀ p q, path = p ++ q → q ≠ [] →
        ∃ n2, follow (rmLink linkErr src tmp root path).root p = some n2
          ∧ follow root p ≠ some n2 := by
  intro path
  induction path with
  | nil => intro tmp root h; simp [rmLink] at h
  | cons c rest ih =>
    intro tmp root h p q hpq hq
    have hw := rmLink_weight linkErr src (c :: rest) tmp root h
    cases p with
    | nil =>
      refine ⟨_, rfl, ?_⟩
      simp only [follow]
      intro hEq
      simp only [Option.some.injEq] at hEq
      rw [← hEq] at hw
      omega
    | cons a p =>
      simp only [List.cons_append, List.cons.injEq] at hpq
      obtain ⟨hca, hrest⟩ := hpq
      subst hca
      have hr : rest ≠ [] := by
        rw [hrest]
        simp [hq]
      rw [rmLink_cons _ _ _ _ _ _ hr] at h ⊢
      rcases hc : rmChild tmp src root c with err | nd
      · simp [hc] at h
      · simp only [hc] at h ⊢
        rcases he : (rmLink linkErr src tmp nd rest).err with _ | err
        · simp only [he] at h ⊢
          obtain ⟨r1, _, _⟩ := relink_ok linkErr _ _ root c _ h
          obtain ⟨hl, _⟩ := rmChild_ok tmp src root c nd hc
          rw [r1]
          simp only [follow, getNodeLink_relinked, hl]
          exact ih tmp nd he p q hrest hq
        · simp [he] at h

theorem addLink_err_ne (linkErr : Node → Bool) (ds : DAGService) (calls : Nat)
    (root : Node) (name : String) (X : Node) :
    (addLink linkErr ds calls root name X).err ≠ some Err.ErrLinkNotFound := by
  by_cases h0 : name = ""
  · simp [addLink, h0]
  · by_cases h1 : ds.addFails X = true
    · simp [addLink, h0, DAGService.Add, h1]
    · by_cases h2 : linkErr X = true
      · simp [addLink, h0, DAGService.Add, h1, Node.AddNodeLinkClean, h2]
      · by_cases h3 : ds.addFails
            (.mk (root.Links.filter (fun x => decide (x.1 ≠ name)) ++ [(name, X)]) root.Data)
            = true
        · simp [addLink, h0, DAGService.Add, h1, Node.AddNodeLinkClean, h2,
            Node.RemoveNodeLink, DAGService.Remove, Node.Links, Node.Data] at h3 ⊢
          simp [h3]
        · simp [addLink, h0, DAGService.Add, h1, Node.AddNodeLinkClean, h2,
            Node.RemoveNodeLink, DAGService.Remove, Node.Links, Node.Data] at h3 ⊢
          simp [h3]

theorem relink_err_ne (linkErr : Node → Bool) (tmp : DAGService) (calls : Nat)
    (root : Node) (name : String) (nd : Node) :
    (relink linkErr tmp calls root name nd).err ≠ some Err.ErrLinkNotFound := by
  by_cases h2 : linkErr nd = true
  · simp [relink, Node.AddNodeLinkClean, h2]
  · by_cases h3 : tmp.addFails
        (.mk (root.Links.filter (fun x => decide (x.1 ≠ name)) ++ [(name, nd)]) root.Data)
        = true
    · simp [relink, DAGService.Add, Node.AddNodeLinkClean, h2,
        Node.RemoveNodeLink, DAGService.Remove, Node.Links, Node.Data] at h3 ⊢
      simp [h3]
    · simp [relink, DAGService.Add, Node.AddNodeLinkClean, h2,
        Node.RemoveNodeLink, DAGService.Remove, Node.Links, Node.Data] at h3 ⊢
      simp [h3]

theorem insertChild_some_err_ne (tmp src : DAGService) (f : Nat → Node) (calls : Nat)
    (root : Node) (name : String) :
    (insertChild tmp src (some f) calls root name).1 ≠ .error Err.ErrLinkNotFound := by
  rcases hl : root.GetNodeLink name with _ | k
  · simp [insertChild, Node.GetLinkedNode, hl]
  · unfold insertChild Node.GetLinkedNode
    simp only [hl, DAGService.Get]
    by_cases g1 : tmp.getFails k = true
    · simp [g1]
    · by_cases t1 : tmp.has k = true
      · simp [g1, t1]
      · by_cases g2 : src.getFails k = true
        · simp [g1, t1, g2]
        · by_cases t2 : src.has k = true <;> simp [g1, t1, g2, t2]

theorem insert_some_err_ne (linkErr : Node → Bool) (src : DAGService) (f : Nat → Node)
    (X : Node) :
    ∀ (path : List String) (tmp : DAGService) (calls : Nat) (root : Node),
      (insertNodeAtPath linkErr src (some f) X tmp calls root path).err
        ≠ some Err.ErrLinkNotFound := by
  intro path
  induction path with
  | nil => intro tmp calls root; simp [insertNodeAtPath]
  | cons c rest ih =>
    intro tmp calls root
    by_cases hr : rest = []
    · subst hr
      simp only [insertNodeAtPath]
      exact addLink_err_ne _ _ _ _ _ _
    · rw [insertNodeAtPath_cons _ _ _ _ _ _ _ _ _ hr]
      have hce := insertChild_some_err_ne tmp src f calls root c
      rcases hc : insertChild tmp src (some f) calls root c with ⟨res, calls1⟩
      rw [hc] at hce
      rcases res with err | nd
      · simp only
        intro hEq
        simp only [Option.some.injEq] at hEq
        subst hEq
        exact hce rfl
      · simp only
        rcases he : (insertNodeAtPath linkErr src (some f) X tmp calls1 nd rest).err
          with _ | err
        · simp only
          exact relink_err_ne _ _ _ _ _ _
        · simp only
          rw [← he]
          exact ih tmp calls1 nd

theorem insert_none_linkNotFound (linkErr : Node → Bool) (src : DAGService) (X : Node)
    (c : String) (post : List String) (hpost : post ≠ []) (n : Node)
    (habs : n.GetNodeLink c = none) :
    ∀ (pre : List String) (tmp : DAGService) (calls : Nat) (root : Node),
      descend tmp src root pre = .ok n →
      (insertNodeAtPath linkErr src none X tmp calls root (pre ++ c :: post)).err
        = some Err.ErrLinkNotFound := by
  intro pre
  induction pre with
  | nil =>
    intro tmp calls root hd
    simp only [descend, Except.ok.injEq] at hd
    subst hd
    simp only [List.nil_append]
    rw [insertNodeAtPath_cons _ _ _ _ _ _ _ _ _ hpost]
    simp [insertChild, Node.GetLinkedNode, habs]
  | cons a pre ih =>
    intro tmp calls root hd
    simp only [descend] at hd
    rcases hc : rmChild tmp src root a with err | k
    · simp [hc] at hd
    · simp only [hc] at hd
      simp only [List.cons_append]
      rw [insertNodeAtPath_cons _ _ _ _ _ _ _ _ _ (by simp)]
      rw [insertChild_none, hc]
      simp only
      rw [ih tmp calls k hd]

theorem insert_created_child (linkErr : Node → Bool) (src : DAGService) (f : Nat → Node)
    (X : Node) (c : String) (post : List String) (hpost : post ≠ []) (n : Node)
    (habs : n.GetNodeLink c = none) :
    ∀ (pre : List String) (tmp : DAGService) (calls : Nat) (root : Node),
      descend tmp src root pre = .ok n →
      (insertNodeAtPath linkErr src (some f) X tmp calls root (pre ++ c :: post)).err
        = none →
      follow (insertNodeAtPath linkErr src (some f) X tmp calls root
          (pre ++ c :: post)).root (pre ++ [c])
        = some (insertNodeAtPath linkErr src (some f) X tmp (calls + 1) (f calls)
            post).root := by
  intro pre
  induction pre with
  | nil =>
    intro tmp calls root hd h
    simp only [descend, Except.ok.injEq] at hd
    subst hd
    simp only [List.nil_append] at h ⊢
    rw [insertNodeAtPath_cons _ _ _ _ _ _ _ _ _ hpost] at h ⊢
    rw [insertChild_absent _ _ _ _ _ _ habs] at h ⊢
    simp only at h ⊢
    rcases he : (insertNodeAtPath linkErr src (some f) X tmp (calls + 1) (f calls)
      post).err with _ | err
    · simp only [he] at h ⊢
      obtain ⟨r1, _, _⟩ := relink_ok linkErr _ _ root c _ h
      rw [r1]
      simp only [follow, getNodeLink_relinked]
    · simp [he] at h
  | cons a pre ih =>
    intro tmp calls root hd h
    simp only [descend] at hd
    rcases hc : rmChild tmp src root a with err | k
    · simp [hc] at hd
    · simp only [hc] at hd
      simp only [List.cons_append] at h ⊢
      rw [insertNodeAtPath_cons _ _ _ _ _ _ _ _ _ (by simp)] at h ⊢
      rw [insertChild_of_rmChild _ _ _ _ _ _ _ hc] at h ⊢
      simp only at h ⊢
      rcases he : (insertNodeAtPath linkErr src (some f) X tmp calls k
        (pre ++ c :: post)).err with _ | err
      · simp only [he] at h ⊢
        obtain ⟨r1, _, _⟩ := relink_ok linkErr _ _ root a _ h
        rw [r1]
        simp only [follow, getNodeLink_relinked]
        exact ih tmp calls k hd he
      · simp [he] at h

theorem addLink_addFails (linkErr : Node → Bool) (ds : DAGService) (calls : Nat)
    (root : Node) (name : String) (X : Node) :
    (addLink linkErr ds calls root name X).tmp.addFails = ds.addFails := by
  by_cases h0 : name = ""
  · simp [addLink, h0]
  · by_cases h1 : ds.addFails X = true
    · simp [addLink, h0, DAGService.Add, h1]
    · by_cases h2 : linkErr X = true
      · simp [addLink, h0, DAGService.Add, h1, Node.AddNodeLinkClean, h2, DAGService.Remove]
      · by_cases h3 : ds.addFails
            (.mk (root.Links.filter (fun x => decide (x.1 ≠ name)) ++ [(name, X)]) root.Data)
            = true
        · simp [addLink, h0, DAGService.Add, h1, Node.AddNodeLinkClean, h2,
            Node.RemoveNodeLink, DAGService.Remove, Node.Links, Node.Data] at h3 ⊢
          simp [h3]
        · simp [addLink, h0, DAGService.Add, h1, Node.AddNodeLinkClean, h2,
            Node.RemoveNodeLink, DAGService.Remove, Node.Links, Node.Data] at h3 ⊢
          simp [h3]

theorem relink_addFails (linkErr : Node → Bool) (tmp : DAGService) (calls : Nat)
    (root : Node) (name : String) (nd : Node) :
    (relink linkErr tmp calls root name nd).tmp.addFails = tmp.addFails := by
  by_cases h2 : linkErr nd = true
  · simp [relink, Node.AddNodeLinkClean, h2, DAGService.Remove]
  · by_cases h3 : tmp.addFails
        (.mk (root.Links.filter (fun x => decide (x.1 ≠ name)) ++ [(name, nd)]) root.Data)
        = true
    · simp [relink, DAGService.Add, Node.AddNodeLinkClean, h2,
        Node.RemoveNodeLink, DAGService.Remove, Node.Links, Node.Data] at h3 ⊢
      simp [h3]
    · simp [relink, DAGService.Add, Node.AddNodeLinkClean, h2,
        Node.RemoveNodeLink, DAGService.Remove, Node.Links, Node.Data] at h3 ⊢
      simp [h3]

theorem relink_no_failure (linkErr : Node → Bool) (tmp : DAGService) (calls : Nat)
    (root : Node) (name : String) (nd : Node) (hl : ∀ n, linkErr n = false)
    (ha : ∀ n, tmp.addFails n = false) :
    (relink linkErr tmp calls root name nd).err = none := by
  simp [relink, DAGService.Add, Node.AddNodeLinkClean, hl, ha, DAGService.Remove]

theorem insert_addFails (linkErr : Node → Bool) (src : DAGService)
    (create : Option (Nat → Node)) (X : Node) :
    ∀ (path : List String) (tmp : DAGService) (calls : Nat) (root : Node),
      (insertNodeAtPath linkErr src create X tmp calls root path).tmp.addFails
        = tmp.addFails := by
  intro path
  induction path with
  | nil => intro tmp calls root; simp [insertNodeAtPath]
  | cons c rest ih =>
    intro tmp calls root
    by_cases hr : rest = []
    · subst hr
      simp only [insertNodeAtPath]
      exact addLink_addFails _ _ _ _ _ _
    · rw [insertNodeAtPath_cons _ _ _ _ _ _ _ _ _ hr]
      rcases hc : insertChild tmp src create calls root c with ⟨res, calls1⟩
      rcases res with err | nd
      · simp
      · simp only
        rcases he : (insertNodeAtPath linkErr src create X tmp calls1 nd rest).err
          with _ | err
        · simp only
          rw [relink_addFails]
          exact ih tmp calls1 nd
        · simp only
          exact ih tmp calls1 nd

theorem rmLink_addFails (linkErr : Node → Bool) (src : DAGService) :
    ∀ (path : List String) (tmp : DAGService) (root : Node),
      (rmLink linkErr src tmp root path).tmp.addFails = tmp.addFails := by
  intro path
  induction path with
  | nil => intro tmp root; simp [rmLink]
  | cons c rest ih =>
    intro tmp root
    by_cases hr : rest = []
    · subst hr
      by_cases h1 : root.Links.any (fun l => decide (l.1 = c)) = true
      · by_cases h2 : tmp.addFails
            (.mk (root.Links.filter (fun l => decide (l.1 ≠ c))) root.Data) = true
        · simp [rmLink, Node.RemoveNodeLink, DAGService.Add] at h1 h2 ⊢
          simp [h1, h2]
        · simp [rmLink, Node.RemoveNodeLink, DAGService.Add] at h1 h2 ⊢
          simp [h1, h2]
      · simp [rmLink, Node.RemoveNodeLink] at h1 ⊢
        simp [h1]
    · rw [rmLink_cons _ _ _ _ _ _ hr]
      rcases hc : rmChild tmp src root c with err | nd
      · simp
      · simp only
        rcases he : (rmLink linkErr src tmp nd rest).err with _ | err
        · simp only
          rw [relink_addFails]
          exact ih tmp nd
        · simp only
          exact ih tmp nd

/-- When neither the overlay's `Add` nor link construction fails, a failing
`insertNodeAtPath` leaves the node it was given as it was. -/
theorem insert_error_keeps_root (linkErr : Node → Bool) (src : DAGService)
    (create : Option (Nat → Node)) (X : Node) (hl : ∀ n, linkErr n = false) :
    ∀ (path : List String) (tmp : DAGService) (calls : Nat) (root : Node),
      (∀ n, tmp.addFails n = false) →
      (insertNodeAtPath linkErr src create X tmp calls root path).err ≠ none →
      (insertNodeAtPath linkErr src create X tmp calls root path).root = root := by
  intro path
  induction path with
  | nil => intro tmp calls root _ _; simp [insertNodeAtPath]
  | cons c rest ih =>
    intro tmp calls root ha h
    by_cases hr : rest = []
    · subst hr
      simp only [insertNodeAtPath] at h ⊢
      by_cases h0 : c = ""
      · simp [addLink, h0]
      · exfalso
        apply h
        simp [addLink, h0, DAGService.Add, ha, Node.AddNodeLinkClean, hl,
          DAGService.Remove]
    · rw [insertNodeAtPath_cons _ _ _ _ _ _ _ _ _ hr] at h ⊢
      rcases hc : insertChild tmp src create calls root c with ⟨res, calls1⟩
      rcases res with err | nd
      · simp
      · simp only [hc] at h ⊢
        rcases he : (insertNodeAtPath linkErr src create X tmp calls1 nd rest).err
          with _ | err
        · simp only [he] at h ⊢
          exfalso
          apply h
          apply relink_no_failure _ _ _ _ _ _ hl
          rw [insert_addFails]
          exact ha
        · simp

/-- When neither the overlay's `Add` nor link construction fails, a failing `rmLink`
leaves the node it was given as it was. -/
theorem rmLink_error_keeps_root (linkErr : Node → Bool) (src : DAGService)
    (hl : ∀ n, linkErr n = false) :
    ∀ (path : List String) (tmp : DAGService) (root : Node),
      (∀ n, tmp.addFails n = false) →
      (rmLink linkErr src tmp root path).err ≠ none →
      (rmLink linkErr src tmp root path).root = root := by
  intro path
  induction path with
  | nil => intro tmp root _ _; simp [rmLink]
  | cons c rest ih =>
    intro tmp root ha h
    by_cases hr : rest = []
    · subst hr
      by_cases h1 : root.Links.any (fun l => decide (l.1 = c)) = true
      · exfalso
        apply h
        simp [rmLink, Node.RemoveNodeLink, DAGService.Add, ha] at h1 ⊢
        simp [h1]
      · have hfil : root.Links.filter (fun l => decide (l.1 ≠ c)) = root.Links := by
          rw [List.filter_eq_self]
          intro l hm
          simp only [List.any_eq_true, not_exists, not_and] at h1
          simpa using h1 l hm
        simp [rmLink, Node.RemoveNodeLink] at h1 hfil ⊢
        simp [h1, hfil]
        cases root with
        | mk l d => simp [Node.Links, Node.Data] at hfil ⊢
                    exact hfil
    · rw [rmLink_cons _ _ _ _ _ _ hr] at h ⊢
      rcases hc : rmChild tmp src root c with err | nd
      · simp
      · simp only [hc] at h ⊢
        rcases he : (rmLink linkErr src tmp nd rest).err with _ | err
        · simp only [he] at h ⊢
          exfalso
          apply h
          apply relink_no_failure _ _ _ _ _ _ hl
          rw [rmLink_addFails]
          exact ha
        · simp

theorem relink_calls (linkErr : Node → Bool) (tmp : DAGService) (calls : Nat)
    (root : Node) (name : String) (nd : Node) :
    (relink linkErr tmp calls root name nd).calls = calls := by
  by_cases h2 : linkErr nd = true
  · simp [relink, Node.AddNodeLinkClean, h2]
  · by_cases h3 : tmp.addFails
        (.mk (root.Links.filter (fun x => decide (x.1 ≠ name)) ++ [(name, nd)]) root.Data)
        = true
    · simp [relink, DAGService.Add, Node.AddNodeLinkClean, h2,
        Node.RemoveNodeLink, DAGService.Remove, Node.Links, Node.Data] at h3 ⊢
      simp [h3]
    · simp [relink, DAGService.Add, Node.AddNodeLinkClean, h2,
        Node.RemoveNodeLink, DAGService.Remove, Node.Links, Node.Data] at h3 ⊢
      simp [h3]

theorem insert_created_step (linkErr : Node → Bool) (src : DAGService) (f : Nat → Node)
    (X : Node) (tmp : DAGService) (calls : Nat) (n : Node) (c : String)
    (post : List String) (hpost : post ≠ []) (habs : n.GetNodeLink c = none) :
    insertNodeAtPath linkErr src (some f) X tmp calls n (c :: post)
      = (match (insertNodeAtPath linkErr src (some f) X tmp (calls + 1) (f calls)
            post).err with
          | some err =>
            ⟨n, (insertNodeAtPath linkErr src (some f) X tmp (calls + 1) (f calls) post).tmp,
              (insertNodeAtPath linkErr src (some f) X tmp (calls + 1) (f calls) post).calls,
              some err⟩
          | none =>
            relink linkErr
              (insertNodeAtPath linkErr src (some f) X tmp (calls + 1) (f calls) post).tmp
              (insertNodeAtPath linkErr src (some f) X tmp (calls + 1) (f calls) post).calls
              n c
              (insertNodeAtPath linkErr src (some f) X tmp (calls + 1) (f calls)
                post).root) := by
  have h := insertNodeAtPath_cons linkErr src (some f) X tmp calls n c post hpost
  rw [insertChild_absent _ _ _ _ _ _ habs] at h
  exact h

theorem insert_created_outcome (linkErr : Node → Bool) (src : DAGService) (f : Nat → Node)
    (X : Node) (c : String) (post : List String) (hpost : post ≠ []) (n : Node)
    (habs : n.GetNodeLink c = none) :
    ∀ (pre : List String) (tmp : DAGService) (calls : Nat) (root : Node),
      descend tmp src root pre = .ok n →
      (insertNodeAtPath linkErr src (some f) X tmp calls root (pre ++ c :: post)).calls
          = (insertNodeAtPath linkErr src (some f) X tmp (calls + 1) (f calls) post).calls
      ∧ (∀ err,
          (insertNodeAtPath linkErr src (some f) X tmp (calls + 1) (f calls) post).err
            = some err →
          (insertNodeAtPath linkErr src (some f) X tmp calls root (pre ++ c :: post)).err
              = some err
            ∧ (insertNodeAtPath linkErr src (some f) X tmp calls root
                (pre ++ c :: post)).root = root
            ∧ (insertNodeAtPath linkErr src (some f) X tmp calls root
                (pre ++ c :: post)).tmp
              = (insertNodeAtPath linkErr src (some f) X tmp (calls + 1) (f calls)
                  post).tmp)
      ∧ ((insertNodeAtPath linkErr src (some f) X tmp (calls + 1) (f calls) post).err
            = none →
          (∀ m, linkErr m = false) → (∀ m, tmp.addFails m = false) →
          (insertNodeAtPath linkErr src (some f) X tmp calls root (pre ++ c :: post)).err
            = none) := by
  intro pre
  induction pre with
  | nil =>
    intro tmp calls root hd
    simp only [descend, Except.ok.injEq] at hd
    subst hd
    simp only [List.nil_append]
    rw [insert_created_step linkErr src f X tmp calls root c post hpost habs]
    rcases he : (insertNodeAtPath linkErr src (some f) X tmp (calls + 1) (f calls)
      post).err with _ | err
    · simp only
      refine ⟨relink_calls _ _ _ _ _ _, ?_, ?_⟩
      · intro err herr
        simp at herr
      · intro _ hl ha
        apply relink_no_failure _ _ _ _ _ _ hl
        rw [insert_addFails]
        exact ha
    · simp only
      refine ⟨trivial, ?_, ?_⟩
      · intro err2 herr
        simp only [Option.some.injEq] at herr
        subst herr
        refine ⟨?_, ?_, ?_⟩ <;> first | rfl | trivial
      · intro h
        simp at h
  | cons a pre ih =>
    intro tmp calls root hd
    simp only [descend] at hd
    rcases hc : rmChild tmp src root a with err | k
    · simp [hc] at hd
    · simp only [hc] at hd
      obtain ⟨i1, i2, i3⟩ := ih tmp calls k hd
      simp only [List.cons_append]
      rw [insertNodeAtPath_cons _ _ _ _ _ _ _ _ _ (by simp)]
      rw [insertChild_of_rmChild _ _ _ _ _ _ _ hc]
      simp only
      rcases he : (insertNodeAtPath linkErr src (some f) X tmp calls k
        (pre ++ c :: post)).err with _ | err
      · simp only
        refine ⟨?_, ?_, ?_⟩
        · rw [relink_calls]
          exact i1
        · intro err herr
          have := (i2 err herr).1
          rw [he] at this
          simp at this
        · intro _ hl ha
          apply relink_no_failure _ _ _ _ _ _ hl
          rw [insert_addFails]
          exact ha
      · simp only
        refine ⟨i1, ?_, ?_⟩
        · intro err2 herr
          obtain ⟨j1, _, j3⟩ := i2 err2 herr
          rw [he] at j1
          refine ⟨?_, ?_, ?_⟩
          · exact j1
          · first | rfl | trivial
          · exact j3
        · intro h hl ha
          have := i3 h hl ha
          rw [he] at this
          simp at this

theorem InsertNodeAtPath_eq (linkErr : Node → Bool) (e : Editor) (pth : String)
    (X : Node) (create : Option (Nat → Node)) :
    e.InsertNodeAtPath linkErr pth X create =
      (⟨(insertNodeAtPath linkErr e.src create X e.tmp 0 e.root (SplitList pth)).root,
        (insertNodeAtPath linkErr e.src create X e.tmp 0 e.root (SplitList pth)).tmp,
        e.src⟩,
       (insertNodeAtPath linkErr e.src create X e.tmp 0 e.root (SplitList pth)).calls,
       (insertNodeAtPath linkErr e.src create X e.tmp 0 e.root (SplitList pth)).err) := by
  unfold Editor.InsertNodeAtPath
  rcases h : (insertNodeAtPath linkErr e.src create X e.tmp 0 e.root (SplitList pth)).err
    with _ | err <;> simp [h]

theorem RmLink_eq (linkErr : Node → Bool) (e : Editor) (pth : String) :
    e.RmLink linkErr pth =
      (⟨(rmLink linkErr e.src e.tmp e.root (SplitList pth)).root,
        (rmLink linkErr e.src e.tmp e.root (SplitList pth)).tmp, e.src⟩,
       (rmLink linkErr e.src e.tmp e.root (SplitList pth)).err) := by
  unfold Editor.RmLink
  rcases h : (rmLink linkErr e.src e.tmp e.root (SplitList pth)).err
    with _ | err <;> simp [h]

/-! ## Properties of the specification -/

/-- C1: evaluation at a failing input.  Inserting the empty node under the name `a` into
an editor whose root is the empty node returns no error and links `a` to the inserted
node, but `addLink` evicts the old root by identity right after adding the child, and the
two have the same identity: the inserted node is in neither store and the walk along the
path from the new root fails, although the link `a` carries the identity of the inserted
node. -/
theorem C1_inserted_node_evicted :
    ((NewDagEditor noFail noFail emptyNode DAGService.empty).InsertNodeAtPath linkOk "a"
        emptyNode none).2.2 = none
    ∧ ((NewDagEditor noFail noFail emptyNode DAGService.empty).InsertNodeAtPath linkOk "a"
        emptyNode none).1.GetNode = .mk [("a", emptyNode)] []
    ∧ present
        ((NewDagEditor noFail noFail emptyNode DAGService.empty).InsertNodeAtPath linkOk "a"
          emptyNode none).1.GetDagService
        ((NewDagEditor noFail noFail emptyNode DAGService.empty).InsertNodeAtPath linkOk "a"
          emptyNode none).1.src emptyNode = false
    ∧ walk
        ((NewDagEditor noFail noFail emptyNode DAGService.empty).InsertNodeAtPath linkOk "a"
          emptyNode none).1.GetDagService
        ((NewDagEditor noFail noFail emptyNode DAGService.empty).InsertNodeAtPath linkOk "a"
          emptyNode none).1.src
        ((NewDagEditor noFail noFail emptyNode DAGService.empty).InsertNodeAtPath linkOk "a"
          emptyNode none).1.GetNode (SplitList "a") = none
    ∧ follow
        ((NewDagEditor noFail noFail emptyNode DAGService.empty).InsertNodeAtPath linkOk "a"
          emptyNode none).1.GetNode (SplitList "a") = some emptyNode := by
  decide

/-- C2: evaluation at failing inputs.  When the overlay's `Add` fails on the rewritten
root, `InsertNodeAtPath` and `RmLink` return that error, yet the root observed through
`GetNode` already carries the new link (insert) or has lost the link (remove): the
methods work on the object `e.root` points to. -/
theorem C2_root_rewritten_on_failure :
    ((NewDagEditor (addFailsOn (.mk [("a", leafNode)] [])) noFail emptyNode
        DAGService.empty).InsertNodeAtPath linkOk "a" leafNode none).2.2
      = some Err.storeFailure
    ∧ (NewDagEditor (addFailsOn (.mk [("a", leafNode)] [])) noFail emptyNode
        DAGService.empty).GetNode = emptyNode
    ∧ ((NewDagEditor (addFailsOn (.mk [("a", leafNode)] [])) noFail emptyNode
        DAGService.empty).InsertNodeAtPath linkOk "a" leafNode none).1.GetNode
      = .mk [("a", leafNode)] []
    ∧ ((NewDagEditor (addFailsOn emptyNode) noFail (.mk [("a", leafNode)] [])
        DAGService.empty).RmLink linkOk "a").2 = some Err.storeFailure
    ∧ (NewDagEditor (addFailsOn emptyNode) noFail (.mk [("a", leafNode)] [])
        DAGService.empty).GetNode = .mk [("a", leafNode)] []
    ∧ ((NewDagEditor (addFailsOn emptyNode) noFail (.mk [("a", leafNode)] [])
        DAGService.empty).RmLink linkOk "a").1.GetNode = emptyNode := by
  decide

/-- C3: when `RmLink` returns no error, the node reached from the new root by walking
every component of the path but the last (children fetched from the overlay, else from
the source store) has no link named by the last component, and its links with other
names are exactly those of the node that stood at that position before the call. -/
theorem C3_rmLink_removes_link (linkErr : Node → Bool) (e : Editor) (pth : String)
    (h : (e.RmLink linkErr pth).2 = none) :
    ∃ last n n2, (SplitList pth).getLast? = some last
      ∧ walk e.tmp e.src e.GetNode (SplitList pth).dropLast = some n
      ∧ walk (e.RmLink linkErr pth).1.tmp (e.RmLink linkErr pth).1.src
          (e.RmLink linkErr pth).1.GetNode (SplitList pth).dropLast = some n2
      ∧ (∀ l ∈ n2.Links, l.1 ≠ last)
      ∧ n2.Links.filter (fun l => decide (l.1 ≠ last))
          = n.Links.filter (fun l => decide (l.1 ≠ last)) := by
  have hne := SplitList_ne_nil pth
  obtain ⟨pre, last, hsplit⟩ : ∃ pre last, SplitList pth = pre ++ [last] :=
    ⟨(SplitList pth).dropLast, (SplitList pth).getLast hne,
      (List.dropLast_append_getLast hne).symm⟩
  simp only [RmLink_eq, Editor.GetNode] at h ⊢
  rw [hsplit] at h ⊢
  obtain ⟨_, _, n, h1, _, h3⟩ := rmLink_spec linkErr e.src pre last e.tmp e.root h
  refine ⟨last, n, .mk (n.Links.filter (fun l => decide (l.1 ≠ last))) n.Data, by simp,
    ?_, ?_, ?_, ?_⟩
  · simpa using h1
  · simpa using h3
  · intro l hl
    simp only [Node.Links] at hl
    have := (List.mem_filter.mp hl).2
    simpa using this
  · simp [Node.Links]

/-- Witness for C3: removing `a/b` from `dirAB`, the child being held by the source
store. -/
theorem C3_rmLink_removes_link_witness :
    ∃ last n n2, (SplitList "a/b").getLast? = some last
      ∧ walk (NewDagEditor noFail noFail dirAB (storeOf (.mk [("b", leafNode)] []))).tmp
          (NewDagEditor noFail noFail dirAB (storeOf (.mk [("b", leafNode)] []))).src
          (NewDagEditor noFail noFail dirAB (storeOf (.mk [("b", leafNode)] []))).GetNode
          (SplitList "a/b").dropLast = some n
      ∧ walk ((NewDagEditor noFail noFail dirAB
            (storeOf (.mk [("b", leafNode)] []))).RmLink linkOk "a/b").1.tmp
          ((NewDagEditor noFail noFail dirAB
            (storeOf (.mk [("b", leafNode)] []))).RmLink linkOk "a/b").1.src
          ((NewDagEditor noFail noFail dirAB
            (storeOf (.mk [("b", leafNode)] []))).RmLink linkOk "a/b").1.GetNode
          (SplitList "a/b").dropLast = some n2
      ∧ (∀ l ∈ n2.Links, l.1 ≠ last)
      ∧ n2.Links.filter (fun l => decide (l.1 ≠ last))
          = n.Links.filter (fun l => decide (l.1 ≠ last)) :=
  C3_rmLink_removes_link linkOk
    (NewDagEditor noFail noFail dirAB (storeOf (.mk [("b", leafNode)] []))) "a/b"
    (by decide)

/-- C4, as stated, fails: on a root without links, `RmLink "missing"` returns
`ErrNotFound`, the error of content absence, and not `ErrLinkNotFound`.  Moreover a name
containing `/` is read as a path: `a/b` is not the name of a link of `dirAB`, and
`RmLink "a/b"` succeeds on it. -/
theorem C4_counterexample_error_kind :
    (∀ l ∈ (NewDagEditor noFail noFail emptyNode DAGService.empty).GetNode.Links,
        l.1 ≠ "missing")
    ∧ ((NewDagEditor noFail noFail emptyNode DAGService.empty).RmLink linkOk "missing").2
        = some Err.ErrNotFound
    ∧ ((NewDagEditor noFail noFail emptyNode DAGService.empty).RmLink linkOk "missing").2
        ≠ some Err.ErrLinkNotFound
    ∧ (∀ l ∈ (NewDagEditor noFail noFail dirAB
          (storeOf (.mk [("b", leafNode)] []))).GetNode.Links, l.1 ≠ "a/b")
    ∧ ((NewDagEditor noFail noFail dirAB (storeOf (.mk [("b", leafNode)] []))).RmLink linkOk
        "a/b").2 = none := by
  decide

/-- C4 (amended): for every editor and every name without `/` that is not the name of a
link of the root, `RmLink name` returns `ErrNotFound` (the error `RemoveNodeLink`
reports) and leaves the editor's root and the overlay unchanged. -/
theorem C4_rmLink_missing_link (linkErr : Node → Bool) (e : Editor) (name : String)
    (hs : ∀ c ∈ name.toList, c ≠ '/')
    (hn : ∀ l ∈ e.GetNode.Links, l.1 ≠ name) :
    (e.RmLink linkErr name).2 = some Err.ErrNotFound
      ∧ (e.RmLink linkErr name).1.GetNode = e.GetNode
      ∧ (e.RmLink linkErr name).1.GetDagService = e.GetDagService := by
  have hany : e.root.Links.any (fun l => decide (l.1 = name)) = false := by
    rw [List.any_eq_false]
    intro l hl
    simpa using hn l hl
  have hfil : e.root.Links.filter (fun l => decide (l.1 ≠ name)) = e.root.Links := by
    rw [List.filter_eq_self]
    intro l hl
    simpa using hn l hl
  simp only [RmLink_eq, Editor.GetNode, Editor.GetDagService, SplitList_single name hs,
    rmLink, Node.RemoveNodeLink, hany, hfil]
  cases e.root with
  | mk l d => simp [Node.Links, Node.Data]

/-- Witness for C4 (amended): the name `missing` on the root `dirA`. -/
theorem C4_rmLink_missing_link_witness :
    ((NewDagEditor noFail noFail dirA DAGService.empty).RmLink linkOk "missing").2
        = some Err.ErrNotFound
      ∧ ((NewDagEditor noFail noFail dirA DAGService.empty).RmLink linkOk
          "missing").1.GetNode = (NewDagEditor noFail noFail dirA DAGService.empty).GetNode
      ∧ ((NewDagEditor noFail noFail dirA DAGService.empty).RmLink linkOk
          "missing").1.GetDagService
        = (NewDagEditor noFail noFail dirA DAGService.empty).GetDagService :=
  C4_rmLink_missing_link linkOk (NewDagEditor noFail noFail dirA DAGService.empty)
    "missing" (by decide) (by decide)

/-- C5: evaluation at a failing input.  The root `dirA` has the entry `a`, an empty node
held by the source store, and no link at `a/a`.  Inserting the empty node at `a/a`
succeeds; the rebuilt node for `a` then has the identity of the old root and is evicted
with it, so the following `RmLink "a/a"` cannot fetch it and fails with `ErrNotFound`. -/
theorem C5_remove_after_insert_fails :
    follow dirA (SplitList "a/a") = none
    ∧ walk (NewDagEditor noFail noFail dirA (storeOf emptyNode)).tmp
        (NewDagEditor noFail noFail dirA (storeOf emptyNode)).src dirA ["a"]
        = some emptyNode
    ∧ ((NewDagEditor noFail noFail dirA (storeOf emptyNode)).InsertNodeAtPath linkOk "a/a"
        emptyNode none).2.2 = none
    ∧ (((NewDagEditor noFail noFail dirA (storeOf emptyNode)).InsertNodeAtPath linkOk "a/a"
        emptyNode none).1.RmLink linkOk "a/a").2 = some Err.ErrNotFound := by
  decide

/-- C6: evaluation at a failing input.  On the editor of C5 the first
`InsertNodeAtPath "a/a"` succeeds and the second, with the same arguments, fails with
`ErrNotFound`: the rebuilt node for `a` was evicted from the overlay together with the
old root, whose identity it shares. -/
theorem C6_second_insert_fails :
    ((NewDagEditor noFail noFail dirA (storeOf emptyNode)).InsertNodeAtPath linkOk "a/a"
        emptyNode none).2.2 = none
    ∧ present
        ((NewDagEditor noFail noFail dirA (storeOf emptyNode)).InsertNodeAtPath linkOk
          "a/a" emptyNode none).1.GetDagService (storeOf emptyNode) dirA = false
    ∧ (((NewDagEditor noFail noFail dirA (storeOf emptyNode)).InsertNodeAtPath linkOk "a/a"
        emptyNode none).1.InsertNodeAtPath linkOk "a/a" emptyNode none).2.2
      = some Err.ErrNotFound := by
  decide

/-- C7, as stated, fails: inserting `leafNode` at `a/b` where `a/b` already leads to
`leafNode` succeeds and leaves the identity of the root as it was. -/
theorem C7_counterexample_reinsert :
    ((NewDagEditor noFail noFail dirAB (storeOf (.mk [("b", leafNode)] []))).InsertNodeAtPath
        linkOk "a/b" leafNode none).2.2 = none
    ∧ (SplitList "a/b").length = 2
    ∧ ((NewDagEditor noFail noFail dirAB (storeOf (.mk [("b", leafNode)] []))).InsertNodeAtPath
        linkOk "a/b" leafNode none).1.GetNode
      = (NewDagEditor noFail noFail dirAB (storeOf (.mk [("b", leafNode)] []))).GetNode := by
  decide

/-- C7 (amended): after a successful `RmLink`, and after a successful `InsertNodeAtPath`
whose path did not already lead, link by link, to a node with the identity of the
inserted node, the root and every node on the path above the edited link exist in the
new root and differ in identity from the node that stood at that position before. -/
theorem C7_identity_propagation (linkErr : Node → Bool) (e : Editor) (pth : String)
    (X : Node) (create : Option (Nat → Node)) :
    ((e.InsertNodeAtPath linkErr pth X create).2.2 = none →
      follow e.GetNode (SplitList pth) ≠ some X →
      ∀ p q, SplitList pth = p ++ q → q ≠ [] →
        ∃ n2, follow (e.InsertNodeAtPath linkErr pth X create).1.GetNode p = some n2
          ∧ follow e.GetNode p ≠ some n2)
    ∧ ((e.RmLink linkErr pth).2 = none →
      ∀ p q, SplitList pth = p ++ q → q ≠ [] →
        ∃ n2, follow (e.RmLink linkErr pth).1.GetNode p = some n2
          ∧ follow e.GetNode p ≠ some n2) := by
  constructor
  · intro h hX p q hpq hq
    simp only [InsertNodeAtPath_eq, Editor.GetNode] at h hX ⊢
    have hfol := insert_follow linkErr e.src create X _ e.tmp 0 e.root h
    have hne := insert_changes linkErr e.src create X _ e.tmp 0 e.root h hX p q hpq hq
    have hfol2 : (follow (insertNodeAtPath linkErr e.src create X e.tmp 0 e.root
        (SplitList pth)).root p).bind (fun m => follow m q) = some X := by
      rw [← follow_append, ← hpq]
      exact hfol
    rcases hf : follow (insertNodeAtPath linkErr e.src create X e.tmp 0 e.root
        (SplitList pth)).root p with _ | n2
    · rw [hf] at hfol2
      simp at hfol2
    · refine ⟨n2, rfl, ?_⟩
      rw [hf] at hne
      exact fun hh => hne hh.symm
  · intro h p q hpq hq
    simp only [RmLink_eq, Editor.GetNode] at h ⊢
    exact rm_changes linkErr e.src _ e.tmp e.root h p q hpq hq

/-- Witness for C7 (amended): inserting `leafNode` at `a/b` into `dirA` changes the node
at `a`, and removing `a/b` from `dirAB` changes the root. -/
theorem C7_identity_propagation_witness :
    (∃ n2, follow ((NewDagEditor noFail noFail dirA (storeOf emptyNode)).InsertNodeAtPath
          linkOk "a/b" leafNode none).1.GetNode ["a"] = some n2
        ∧ follow (NewDagEditor noFail noFail dirA (storeOf emptyNode)).GetNode ["a"]
          ≠ some n2)
    ∧ (∃ n2, follow ((NewDagEditor noFail noFail dirAB
          (storeOf (.mk [("b", leafNode)] []))).RmLink linkOk "a/b").1.GetNode [] = some n2
        ∧ follow (NewDagEditor noFail noFail dirAB
          (storeOf (.mk [("b", leafNode)] []))).GetNode [] ≠ some n2) :=
  ⟨(C7_identity_propagation linkOk (NewDagEditor noFail noFail dirA (storeOf emptyNode))
      "a/b" leafNode none).1 (by decide) (by decide) ["a"] ["b"] (by decide) (by decide),
   (C7_identity_propagation linkOk (NewDagEditor noFail noFail dirAB
      (storeOf (.mk [("b", leafNode)] []))) "a/b" leafNode none).2 (by decide) []
      ["a", "b"] (by decide) (by decide)⟩

/-- C8: evaluation at a failing input.  The path `/b` has an empty first component; with
a creation callback `InsertNodeAtPath` returns no error and gives the root a link whose
name is empty: only the name of the last component is checked. -/
theorem C8_empty_intermediate_name :
    SplitList "/b" = ["", "b"]
    ∧ ((NewDagEditor noFail noFail emptyNode DAGService.empty).InsertNodeAtPath linkOk "/b"
        leafNode (some (fun _ => emptyNode))).2.2 = none
    ∧ ((NewDagEditor noFail noFail emptyNode DAGService.empty).InsertNodeAtPath linkOk "/b"
        leafNode (some (fun _ => emptyNode))).1.GetNode
      = .mk [("", .mk [("b", leafNode)] [])] [] := by
  decide

/-- C9: let a non-final component `c` of the path be absent from the links of the node
`n` that the descent reaches through the earlier components.  With a nil callback
`InsertNodeAtPath` returns `ErrLinkNotFound`.  With a callback `f` the absence is not an
error: child resolution yields the first node made by the callback (`f 0`: no invocation
for the earlier, linked components), the call at `n` is the relink of `n` to the result
of the rest of the path inserted into `f 0`, and the whole call has the invocation count
of that inner call, fails exactly with the error of the inner call when the inner call
fails, succeeds when the inner call succeeds and neither `Add` nor link construction
fails, and on success carries the rebuilt callback node at that depth of the new root;
it never returns `ErrLinkNotFound`.  In general, child resolution on a node that has a
link of the requested name does not invoke the callback. -/
theorem C9_missing_intermediate_link (linkErr : Node → Bool) (e : Editor) (pth : String)
    (X : Node) (pre : List String) (c : String) (post : List String) (n : Node)
    (hsplit : SplitList pth = pre ++ c :: post) (hpost : post ≠ [])
    (hres : descend e.tmp e.src e.GetNode pre = .ok n)
    (habs : n.GetNodeLink c = none) :
    (e.InsertNodeAtPath linkErr pth X none).2.2 = some Err.ErrLinkNotFound
    ∧ (∀ f : Nat → Node,
        (e.InsertNodeAtPath linkErr pth X (some f)).2.2 ≠ some Err.ErrLinkNotFound
        ∧ insertChild e.tmp e.src (some f) 0 n c = (.ok (f 0), 1)
        ∧ ((e.InsertNodeAtPath linkErr pth X (some f)).2.2 = none →
            follow (e.InsertNodeAtPath linkErr pth X (some f)).1.GetNode (pre ++ [c])
              = some (insertNodeAtPath linkErr e.src (some f) X e.tmp 1 (f 0) post).root)
        ∧ insertNodeAtPath linkErr e.src (some f) X e.tmp 0 n (c :: post)
          = (match (insertNodeAtPath linkErr e.src (some f) X e.tmp 1 (f 0) post).err with
              | some err =>
                ⟨n, (insertNodeAtPath linkErr e.src (some f) X e.tmp 1 (f 0) post).tmp,
                  (insertNodeAtPath linkErr e.src (some f) X e.tmp 1 (f 0) post).calls,
                  some err⟩
              | none =>
                relink linkErr
                  (insertNodeAtPath linkErr e.src (some f) X e.tmp 1 (f 0) post).tmp
                  (insertNodeAtPath linkErr e.src (some f) X e.tmp 1 (f 0) post).calls
                  n c (insertNodeAtPath linkErr e.src (some f) X e.tmp 1 (f 0) post).root)
        ∧ (e.InsertNodeAtPath linkErr pth X (some f)).2.1
          = (insertNodeAtPath linkErr e.src (some f) X e.tmp 1 (f 0) post).calls
        ∧ (∀ err,
            (insertNodeAtPath linkErr e.src (some f) X e.tmp 1 (f 0) post).err = some err →
            (e.InsertNodeAtPath linkErr pth X (some f)).2.2 = some err
              ∧ (e.InsertNodeAtPath linkErr pth X (some f)).1.GetNode = e.GetNode)
        ∧ ((insertNodeAtPath linkErr e.src (some f) X e.tmp 1 (f 0) post).err = none →
            (∀ m, linkErr m = false) → (∀ m, e.GetDagService.addFails m = false) →
            (e.InsertNodeAtPath linkErr pth X (some f)).2.2 = none))
    ∧ (∀ (tmp src : DAGService) (create : Option (Nat → Node)) (calls : Nat) (m : Node)
        (name : String), m.GetNodeLink name ≠ none →
          (insertChild tmp src create calls m name).2 = calls) := by
  simp only [InsertNodeAtPath_eq, Editor.GetNode, Editor.GetDagService, hsplit] at hres ⊢
  refine ⟨?_, ?_, ?_⟩
  · exact insert_none_linkNotFound linkErr e.src X c post hpost n habs pre e.tmp 0 e.root
      hres
  · intro f
    obtain ⟨o1, o2, o3⟩ := insert_created_outcome linkErr e.src f X c post hpost n habs pre
      e.tmp 0 e.root hres
    refine ⟨insert_some_err_ne linkErr e.src f X _ e.tmp 0 e.root,
      insertChild_absent _ _ _ _ _ _ habs, ?_,
      insert_created_step linkErr e.src f X e.tmp 0 n c post hpost habs, o1, ?_, o3⟩
    · intro h
      exact insert_created_child linkErr e.src f X c post hpost n habs pre e.tmp 0 e.root
        hres h
    · intro err herr
      exact ⟨(o2 err herr).1, (o2 err herr).2.1⟩
  · intro tmp src create calls m name hm
    exact insertChild_linked tmp src create calls m name hm

/-- Witness for C9: the path `a/b/c` on the root `dirA`, whose entry `a` is an empty node
held by the source store and has no link `b`.  Without a callback the call fails with
`ErrLinkNotFound`; with a callback making empty nodes it succeeds after one invocation,
and the node at `a/b` of the new root is the callback's node with `c` linked to the
inserted node. -/
theorem C9_missing_intermediate_link_witness :
    ((NewDagEditor noFail noFail dirA (storeOf emptyNode)).InsertNodeAtPath linkOk "a/b/c"
        leafNode none).2.2 = some Err.ErrLinkNotFound
    ∧ ((NewDagEditor noFail noFail dirA (storeOf emptyNode)).InsertNodeAtPath linkOk "a/b/c"
        leafNode (some (fun _ => emptyNode))).2.2 = none
    ∧ ((NewDagEditor noFail noFail dirA (storeOf emptyNode)).InsertNodeAtPath linkOk "a/b/c"
        leafNode (some (fun _ => emptyNode))).2.1
      = (insertNodeAtPath linkOk (storeOf emptyNode) (some (fun _ => emptyNode)) leafNode
          (NewDagEditor noFail noFail dirA (storeOf emptyNode)).tmp 1 emptyNode ["c"]).calls
    ∧ follow ((NewDagEditor noFail noFail dirA (storeOf emptyNode)).InsertNodeAtPath linkOk
        "a/b/c" leafNode (some (fun _ => emptyNode))).1.GetNode (["a"] ++ ["b"])
      = some (insertNodeAtPath linkOk (storeOf emptyNode) (some (fun _ => emptyNode))
          leafNode (NewDagEditor noFail noFail dirA (storeOf emptyNode)).tmp 1 emptyNode
          ["c"]).root
    ∧ (insertNodeAtPath linkOk (storeOf emptyNode) (some (fun _ => emptyNode)) leafNode
          (NewDagEditor noFail noFail dirA (storeOf emptyNode)).tmp 1 emptyNode
          ["c"]).root = .mk [("c", leafNode)] []
    ∧ (insertNodeAtPath linkOk (storeOf emptyNode) (some (fun _ => emptyNode)) leafNode
          (NewDagEditor noFail noFail dirA (storeOf emptyNode)).tmp 1 emptyNode
          ["c"]).calls = 1 :=
  ⟨(C9_missing_intermediate_link linkOk (NewDagEditor noFail noFail dirA (storeOf emptyNode))
      "a/b/c" leafNode ["a"] "b" ["c"] emptyNode (by decide) (by decide) rfl
      (by decide)).1,
   ((C9_missing_intermediate_link linkOk (NewDagEditor noFail noFail dirA (storeOf emptyNode))
      "a/b/c" leafNode ["a"] "b" ["c"] emptyNode (by decide) (by decide) rfl
      (by decide)).2.1 (fun _ => emptyNode)).2.2.2.2.2.2 (by decide) (fun _ => rfl)
      (fun _ => rfl),
   ((C9_missing_intermediate_link linkOk (NewDagEditor noFail noFail dirA (storeOf emptyNode))
      "a/b/c" leafNode ["a"] "b" ["c"] emptyNode (by decide) (by decide) rfl
      (by decide)).2.1 (fun _ => emptyNode)).2.2.2.2.1,
   ((C9_missing_intermediate_link linkOk (NewDagEditor noFail noFail dirA (storeOf emptyNode))
      "a/b/c" leafNode ["a"] "b" ["c"] emptyNode (by decide) (by decide) rfl
      (by decide)).2.1 (fun _ => emptyNode)).2.2.1
      (((C9_missing_intermediate_link linkOk
        (NewDagEditor noFail noFail dirA (storeOf emptyNode))
        "a/b/c" leafNode ["a"] "b" ["c"] emptyNode (by decide) (by decide) rfl
        (by decide)).2.1 (fun _ => emptyNode)).2.2.2.2.2.2 (by decide) (fun _ => rfl)
        (fun _ => rfl)),
   by decide, by decide⟩

/-- C10: after a successful `InsertNodeAtPath` whose path is the single component `name`,
the root has exactly one link named `name`, that link points at the identity of the
inserted node, and the links with other names are the previous links with other names,
in their previous order. -/
theorem C10_single_component_insert (linkErr : Node → Bool) (e : Editor) (name : String)
    (X : Node) (create : Option (Nat → Node))
    (hs : ∀ c ∈ name.toList, c ≠ '/')
    (hok : (e.InsertNodeAtPath linkErr name X create).2.2 = none) :
    (e.InsertNodeAtPath linkErr name X create).1.GetNode.Links.filter
        (fun l => decide (l.1 = name)) = [(name, X)]
    ∧ (e.InsertNodeAtPath linkErr name X create).1.GetNode.Links.filter
        (fun l => decide (l.1 ≠ name))
      = e.GetNode.Links.filter (fun l => decide (l.1 ≠ name)) := by
  simp only [InsertNodeAtPath_eq, Editor.GetNode, SplitList_single name hs,
    insertNodeAtPath] at hok ⊢
  obtain ⟨_, h2, _⟩ := addLink_ok linkErr e.tmp 0 e.root name X hok
  rw [h2]
  simp only [Node.Links, List.filter_append, List.filter_filter]
  constructor
  · simp
  · simp

/-- Witness for C10: replacing the entry `a` of `dirA` by `leafNode`. -/
theorem C10_single_component_insert_witness :
    ((NewDagEditor noFail noFail dirA DAGService.empty).InsertNodeAtPath linkOk "a"
        leafNode none).1.GetNode.Links.filter (fun l => decide (l.1 = "a"))
      = [("a", leafNode)]
    ∧ ((NewDagEditor noFail noFail dirA DAGService.empty).InsertNodeAtPath linkOk "a"
        leafNode none).1.GetNode.Links.filter (fun l => decide (l.1 ≠ "a"))
      = (NewDagEditor noFail noFail dirA DAGService.empty).GetNode.Links.filter
          (fun l => decide (l.1 ≠ "a")) :=
  C10_single_component_insert linkOk (NewDagEditor noFail noFail dirA DAGService.empty)
    "a" leafNode none (by decide) (by decide)


/-! ## Failing calls and the overlay -/

theorem insert_error_keeps_tmp (linkErr : Node → Bool) (src : DAGService)
    (create : Option (Nat → Node)) (X : Node) (hl : ∀ n, linkErr n = false) :
    ∀ (path : List String) (tmp : DAGService) (calls : Nat) (root : Node),
      (∀ n, tmp.addFails n = false) →
      (insertNodeAtPath linkErr src create X tmp calls root path).err ≠ none →
      (insertNodeAtPath linkErr src create X tmp calls root path).tmp = tmp := by
  intro path
  induction path with
  | nil => intro tmp calls root _ _; simp [insertNodeAtPath]
  | cons c rest ih =>
    intro tmp calls root ha h
    by_cases hr : rest = []
    · subst hr
      simp only [insertNodeAtPath] at h ⊢
      by_cases h0 : c = ""
      · simp [addLink, h0]
      · exfalso
        apply h
        simp [addLink, h0, DAGService.Add, ha, Node.AddNodeLinkClean, hl,
          DAGService.Remove]
    · rw [insertNodeAtPath_cons _ _ _ _ _ _ _ _ _ hr] at h ⊢
      rcases hc : insertChild tmp src create calls root c with ⟨res, calls1⟩
      rcases res with err | nd
      · simp
      · simp only [hc] at h ⊢
        rcases he : (insertNodeAtPath linkErr src create X tmp calls1 nd rest).err
          with _ | err
        · simp only [he] at h ⊢
          exfalso
          apply h
          apply relink_no_failure _ _ _ _ _ _ hl
          rw [insert_addFails]
          exact ha
        · simp only
          exact ih tmp calls1 nd ha (by rw [he]; simp)

theorem rmLink_error_keeps_tmp (linkErr : Node → Bool) (src : DAGService)
    (hl : ∀ n, linkErr n = false) :
    ∀ (path : List String) (tmp : DAGService) (root : Node),
      (∀ n, tmp.addFails n = false) →
      (rmLink linkErr src tmp root path).err ≠ none →
      (rmLink linkErr src tmp root path).tmp = tmp := by
  intro path
  induction path with
  | nil => intro tmp root _ _; simp [rmLink]
  | cons c rest ih =>
    intro tmp root ha h
    by_cases hr : rest = []
    · subst hr
      by_cases h1 : root.Links.any (fun l => decide (l.1 = c)) = true
      · exfalso
        apply h
        simp [rmLink, Node.RemoveNodeLink, DAGService.Add, ha] at h1 ⊢
        simp [h1]
      · simp [rmLink, Node.RemoveNodeLink] at h1 ⊢
        simp [h1]
    · rw [rmLink_cons _ _ _ _ _ _ hr] at h ⊢
      rcases hc : rmChild tmp src root c with err | nd
      · simp
      · simp only [hc] at h ⊢
        rcases he : (rmLink linkErr src tmp nd rest).err with _ | err
        · simp only [he] at h ⊢
          exfalso
          apply h
          apply relink_no_failure _ _ _ _ _ _ hl
          rw [rmLink_addFails]
          exact ha
        · simp only
          exact ih tmp nd ha (by rw [he]; simp)

/-! ## Independence of the source store -/

theorem insertChild_indep (tmp src1 src2 : DAGService) (create : Option (Nat → Node))
    (calls : Nat) (root : Node) (name : String)
    (h : ∀ k, root.GetNodeLink name = some k → tmp.has k = true) :
    insertChild tmp src1 create calls root name
      = insertChild tmp src2 create calls root name := by
  rcases hl : root.GetNodeLink name with _ | k
  · cases create <;> simp [insertChild, Node.GetLinkedNode, hl]
  · have hk := h k hl
    unfold insertChild Node.GetLinkedNode
    simp only [hl, DAGService.Get]
    by_cases g1 : tmp.getFails k = true
    · cases create <;> simp [g1]
    · simp [g1, hk]

theorem rmChild_indep (tmp src1 src2 : DAGService) (root : Node) (name : String)
    (h : ∀ k, root.GetNodeLink name = some k → tmp.has k = true) :
    rmChild tmp src1 root name = rmChild tmp src2 root name := by
  rcases hl : root.GetNodeLink name with _ | k
  · simp [rmChild, Node.GetLinkedNode, hl]
  · have hk := h k hl
    unfold rmChild Node.GetLinkedNode
    simp only [hl, DAGService.Get]
    by_cases g1 : tmp.getFails k = true
    · simp [g1]
    · simp [g1, hk]

theorem insert_src_indep (linkErr : Node → Bool) (src1 src2 : DAGService)
    (create : Option (Nat → Node)) (X : Node) (tmp : DAGService) :
    ∀ (path : List String) (calls : Nat) (root : Node),
      linksInOverlay tmp create calls root path = true →
      insertNodeAtPath linkErr src1 create X tmp calls root path
        = insertNodeAtPath linkErr src2 create X tmp calls root path := by
  intro path
  induction path with
  | nil => intro calls root _; simp [insertNodeAtPath]
  | cons c rest ih =>
    intro calls root h
    cases rest with
    | nil => simp [insertNodeAtPath]
    | cons next rest =>
      rw [insertNodeAtPath_cons _ _ _ _ _ _ _ _ _ (by simp),
        insertNodeAtPath_cons _ _ _ _ _ _ _ _ _ (by simp)]
      rcases hl : root.GetNodeLink c with _ | k
      · simp only [linksInOverlay, hl] at h
        have hind := insertChild_indep tmp src1 src2 create calls root c
          (by intro k hk; rw [hl] at hk; simp at hk)
        rw [hind]
        cases create with
        | none => simp [insertChild, Node.GetLinkedNode, hl]
        | some f =>
          simp only at h
          rw [insertChild_absent _ _ _ _ _ _ hl]
          simp only
          rw [ih (calls + 1) (f calls) h]
      · simp only [linksInOverlay, hl, Bool.and_eq_true] at h
        have hind := insertChild_indep tmp src1 src2 create calls root c
          (by intro k2 hk; rw [hl] at hk; simp at hk; rw [← hk]; exact h.1)
        rw [hind]
        rcases hc : insertChild tmp src2 create calls root c with ⟨res, calls1⟩
        rcases res with err | nd
        · simp
        · have hcalls := insertChild_linked tmp src2 create calls root c (by rw [hl]; simp)
          have hnd := insertChild_ok tmp src2 create calls calls1 root c nd hc
          rw [hc] at hcalls
          simp only at hcalls
          subst hcalls
          rw [hl] at hnd
          simp at hnd
          subst hnd
          simp only
          rw [ih calls1 k h.2]

theorem rmLink_src_indep (linkErr : Node → Bool) (src1 src2 : DAGService)
    (tmp : DAGService) :
    ∀ (path : List String) (root : Node),
      linksInOverlay tmp none 0 root path = true →
      rmLink linkErr src1 tmp root path = rmLink linkErr src2 tmp root path := by
  intro path
  induction path with
  | nil => intro root _; simp [rmLink]
  | cons c rest ih =>
    intro root h
    cases rest with
    | nil => simp [rmLink]
    | cons next rest =>
      rw [rmLink_cons _ _ _ _ _ _ (by simp), rmLink_cons _ _ _ _ _ _ (by simp)]
      rcases hl : root.GetNodeLink c with _ | k
      · simp [rmChild, Node.GetLinkedNode, hl]
      · simp only [linksInOverlay, hl, Bool.and_eq_true] at h
        have hind := rmChild_indep tmp src1 src2 root c
          (by intro k2 hk; rw [hl] at hk; simp at hk; rw [← hk]; exact h.1)
        rw [hind]
        rcases hc : rmChild tmp src2 root c with err | nd
        · simp
        · have hnd := (rmChild_ok tmp src2 root c nd hc).1
          rw [hl] at hnd
          simp at hnd
          subst hnd
          simp only
          rw [ih k h.2]

theorem insertChild_congr (tmp src1 src2 : DAGService) (create : Option (Nat → Node))
    (calls : Nat) (root : Node) (name : String)
    (h : ∀ k, root.GetNodeLink name = some k → src1.Get k = src2.Get k) :
    insertChild tmp src1 create calls root name
      = insertChild tmp src2 create calls root name := by
  rcases hl : root.GetNodeLink name with _ | k
  · cases create <;> simp [insertChild, Node.GetLinkedNode, hl]
  · unfold insertChild Node.GetLinkedNode
    simp only [hl, h k hl]

theorem rmChild_congr (tmp src1 src2 : DAGService) (root : Node) (name : String)
    (h : ∀ k, root.GetNodeLink name = some k → src1.Get k = src2.Get k) :
    rmChild tmp src1 root name = rmChild tmp src2 root name := by
  rcases hl : root.GetNodeLink name with _ | k
  · simp [rmChild, Node.GetLinkedNode, hl]
  · unfold rmChild Node.GetLinkedNode
    simp only [hl, h k hl]

theorem insert_src_congr (linkErr : Node → Bool) (src1 src2 : DAGService)
    (create : Option (Nat → Node)) (X : Node) (tmp : DAGService) :
    ∀ (path : List String) (calls : Nat) (root : Node),
      (∀ k ∈ pathTargets create calls root path, src1.Get k = src2.Get k) →
      insertNodeAtPath linkErr src1 create X tmp calls root path
        = insertNodeAtPath linkErr src2 create X tmp calls root path := by
  intro path
  induction path with
  | nil => intro calls root _; simp [insertNodeAtPath]
  | cons c rest ih =>
    intro calls root h
    cases rest with
    | nil => simp [insertNodeAtPath]
    | cons next rest =>
      rw [insertNodeAtPath_cons _ _ _ _ _ _ _ _ _ (by simp),
        insertNodeAtPath_cons _ _ _ _ _ _ _ _ _ (by simp)]
      rcases hl : root.GetNodeLink c with _ | k
      · simp only [pathTargets, hl] at h
        have hind := insertChild_congr tmp src1 src2 create calls root c
          (by intro k hk; rw [hl] at hk; simp at hk)
        rw [hind]
        cases create with
        | none => simp [insertChild, Node.GetLinkedNode, hl]
        | some f =>
          simp only at h
          rw [insertChild_absent _ _ _ _ _ _ hl]
          simp only
          rw [ih (calls + 1) (f calls) h]
      · simp only [pathTargets, hl, List.mem_cons] at h
        have hind := insertChild_congr tmp src1 src2 create calls root c
          (by intro k2 hk; rw [hl] at hk; simp at hk; rw [← hk]; exact h k (Or.inl rfl))
        rw [hind]
        rcases hc : insertChild tmp src2 create calls root c with ⟨res, calls1⟩
        rcases res with err | nd
        · simp
        · have hcalls := insertChild_linked tmp src2 create calls root c (by rw [hl]; simp)
          have hnd := insertChild_ok tmp src2 create calls calls1 root c nd hc
          rw [hc] at hcalls
          simp only at hcalls
          subst hcalls
          rw [hl] at hnd
          simp at hnd
          subst hnd
          simp only
          rw [ih calls1 k (fun k2 hk2 => h k2 (Or.inr hk2))]

theorem rmLink_src_congr (linkErr : Node → Bool) (src1 src2 : DAGService)
    (tmp : DAGService) :
    ∀ (path : List String) (root : Node),
      (∀ k ∈ pathTargets none 0 root path, src1.Get k = src2.Get k) →
      rmLink linkErr src1 tmp root path = rmLink linkErr src2 tmp root path := by
  intro path
  induction path with
  | nil => intro root _; simp [rmLink]
  | cons c rest ih =>
    intro root h
    cases rest with
    | nil => simp [rmLink]
    | cons next rest =>
      rw [rmLink_cons _ _ _ _ _ _ (by simp), rmLink_cons _ _ _ _ _ _ (by simp)]
      rcases hl : root.GetNodeLink c with _ | k
      · simp [rmChild, Node.GetLinkedNode, hl]
      · simp only [pathTargets, hl, List.mem_cons] at h
        have hind := rmChild_congr tmp src1 src2 root c
          (by intro k2 hk; rw [hl] at hk; simp at hk; rw [← hk]; exact h k (Or.inl rfl))
        rw [hind]
        rcases hc : rmChild tmp src2 root c with err | nd
        · simp
        · have hnd := (rmChild_ok tmp src2 root c nd hc).1
          rw [hl] at hnd
          simp at hnd
          subst hnd
          simp only
          rw [ih k (fun k2 hk2 => h k2 (Or.inr hk2))]

/-! ## The copy into the target store -/

theorem Get_ok (s : DAGService) (k c : Node) (h : s.Get k = .ok c) : c = k := by
  unfold DAGService.Get at h
  by_cases g : s.getFails k = true
  · simp [g] at h
  · by_cases t : s.has k = true
    · simp [g, t] at h
      exact h.symm
    · simp [g, t] at h

mutual
theorem copyDag_ok (frm : DAGService) :
    ∀ (n : Node) (tgt : DAGService), (copyDag frm n tgt).err = none →
      CopiedExactly frm tgt (copyDag frm n tgt) (reach frm n)
  | .mk links data, tgt => by
    intro h
    by_cases ha : tgt.addFails (.mk links data) = true
    · simp [copyDag, DAGService.Add, ha] at h
    · simp only [copyDag, DAGService.Add, ha] at h ⊢
      simp only [Bool.false_eq_true, if_false] at h ⊢
      obtain ⟨⟨h1, h2, h3, h4⟩, h5⟩ := copyLinks_ok frm links _ h
      refine ⟨?_, ?_, ?_, ?_⟩
      · intro m
        rw [h1 m]
        simp only [reach, List.mem_cons]
        by_cases hm : m = .mk links data
        · simp [hm]
        · simp [hm]
      · rw [h2]
      · rw [h3]
      · intro m hm l hl
        simp only [reach, List.mem_cons] at hm
        rcases hm with hm | hm
        · subst hm
          exact h5 l hl
        · exact h4 m hm l hl
theorem copyLinks_ok (frm : DAGService) :
    ∀ (l : List (String × Node)) (tgt : DAGService), (copyLinks frm l tgt).err = none →
      CopiedExactly frm tgt (copyLinks frm l tgt) (reachLinks frm l)
        ∧ ∀ x ∈ l, frm.getFails x.2 = false
  | [], tgt => by
    intro _
    simp [copyLinks, reachLinks, CopiedExactly]
  | (c, k) :: rest, tgt => by
    intro h
    by_cases g : frm.getFails k = true
    · simp [copyLinks, DAGService.Get, g] at h
    · by_cases t : frm.has k = true
      · simp only [copyLinks, DAGService.Get, g, t, reachLinks] at h ⊢
        simp only [Bool.false_eq_true, if_false, if_true] at h ⊢
        rcases hcd : copyDag frm k tgt with ⟨t1, e1⟩
        rw [hcd] at h
        cases e1 with
        | some err => simp at h
        | none =>
          simp only at h ⊢
          have hk := copyDag_ok frm k tgt (by rw [hcd])
          rw [hcd] at hk
          obtain ⟨a1, a2, a3, a4⟩ := hk
          obtain ⟨⟨b1, b2, b3, b4⟩, b5⟩ := copyLinks_ok frm rest t1 h
          simp only at a1 a2 a3
          refine ⟨⟨?_, ?_, ?_, ?_⟩, ?_⟩
          · intro m
            rw [b1 m, a1 m]
            simp only [List.mem_append]
            by_cases x1 : m ∈ reach frm k <;> by_cases x2 : m ∈ reachLinks frm rest <;>
              simp [x1, x2]
          · rw [b2, a2]
          · rw [b3, a3]
          · intro m hm l hl
            rcases List.mem_append.mp hm with hm | hm
            · exact a4 m hm l hl
            · exact b4 m hm l hl
          · intro x hx
            rcases List.mem_cons.mp hx with hx | hx
            · subst hx
              simpa using g
            · exact b5 x hx
      · simp only [copyLinks, DAGService.Get, g, t, reachLinks] at h ⊢
        simp only [Bool.false_eq_true, if_false, if_true] at h ⊢
        obtain ⟨hb, b5⟩ := copyLinks_ok frm rest tgt h
        refine ⟨hb, ?_⟩
        intro x hx
        rcases List.mem_cons.mp hx with hx | hx
        · subst hx
          simpa using g
        · exact b5 x hx
end

mutual
theorem copyDag_grows (frm : DAGService) :
    ∀ (n : Node) (tgt : DAGService),
      (∀ m, tgt.has m = true → (copyDag frm n tgt).target.has m = true)
        ∧ ((copyDag frm n tgt).err = none
            ∨ (copyDag frm n tgt).err = some Err.storeFailure)
  | .mk links data, tgt => by
    by_cases ha : tgt.addFails (.mk links data) = true
    · simp [copyDag, DAGService.Add, ha]
    · simp only [copyDag, DAGService.Add, ha]
      simp only [Bool.false_eq_true, if_false]
      obtain ⟨h1, h2⟩ := copyLinks_grows frm links
        ⟨fun m => if m = Node.mk links data then true else tgt.has m, tgt.addFails,
          tgt.getFails⟩
      refine ⟨?_, h2⟩
      intro m hm
      apply h1
      simp [hm]
theorem copyLinks_grows (frm : DAGService) :
    ∀ (l : List (String × Node)) (tgt : DAGService),
      (∀ m, tgt.has m = true → (copyLinks frm l tgt).target.has m = true)
        ∧ ((copyLinks frm l tgt).err = none
            ∨ (copyLinks frm l tgt).err = some Err.storeFailure)
  | [], tgt => by
    simp [copyLinks]
  | (c, k) :: rest, tgt => by
    by_cases g : frm.getFails k = true
    · simp [copyLinks, DAGService.Get, g]
    · by_cases t : frm.has k = true
      · simp only [copyLinks, DAGService.Get, g, t]
        simp only [Bool.false_eq_true, if_false, if_true]
        have hk := copyDag_grows frm k tgt
        rcases hcd : copyDag frm k tgt with ⟨t1, e1⟩
        rw [hcd] at hk
        cases e1 with
        | some err =>
          simp only at hk ⊢
          exact hk
        | none =>
          simp only at hk ⊢
          obtain ⟨b1, b2⟩ := copyLinks_grows frm rest t1
          exact ⟨fun m hm => b1 m (hk.1 m hm), b2⟩
      · simp only [copyLinks, DAGService.Get, g, t]
        simp only [Bool.false_eq_true, if_false, if_true]
        exact copyLinks_grows frm rest tgt
end

mutual
theorem reach_mem (frm : DAGService) :
    ∀ (n x : Node), x ∈ reach frm n → x = n ∨ (frm.has x = true ∧ x.weight < n.weight)
  | .mk links data, x => by
    intro hx
    simp only [reach, List.mem_cons] at hx
    rcases hx with hx | hx
    · exact Or.inl hx
    · right
      have := reachLinks_mem frm links x hx
      exact ⟨this.1, by simp only [Node.weight]; omega⟩
theorem reachLinks_mem (frm : DAGService) :
    ∀ (l : List (String × Node)) (x : Node), x ∈ reachLinks frm l →
      frm.has x = true ∧ x.weight < 1 + Node.weightLinks l
  | [], x => by
    intro hx
    simp [reachLinks] at hx
  | (c, k) :: rest, x => by
    intro hx
    simp only [reachLinks] at hx
    simp only [Node.weightLinks]
    by_cases t : frm.has k = true
    · simp only [t, if_true, List.mem_append] at hx
      rcases hx with hx | hx
      · rcases reach_mem frm k x hx with h1 | h1
        · subst h1
          exact ⟨t, by omega⟩
        · exact ⟨h1.1, by omega⟩
      · have := reachLinks_mem frm rest x hx
        exact ⟨this.1, by omega⟩
    · simp only [t] at hx
      have := reachLinks_mem frm rest x hx
      exact ⟨this.1, by omega⟩
end

theorem link_weight (m : Node) (l : String × Node) (hl : l ∈ m.Links) :
    l.2.weight < m.weight := by
  have := weightLinks_filter_mem l.1 l.2 m.Links hl
  cases m with
  | mk ls d =>
    simp [Node.Links] at this
    simp [Node.weight]
    omega

/-! ## Properties of sessions, export and the two stores -/

/-- C11: evaluation at a failing input.  The editor is created over `dirX`, whose only
descendant `leafNode` is in the source store.  `RmLink "x"` and then
`InsertNodeAtPath "a"` of the link-free empty node both succeed; the second call adds the
empty node and then evicts the old root, which is the empty node as well.  The empty node
is reachable from the current root and can be fetched from neither store. -/
theorem C11_reachable_node_lost :
    (∀ m ∈ descendants dirX, m ≠ dirX → (storeOfList [dirX, leafNode]).has m = true)
    ∧ ((NewDagEditor noFail noFail dirX (storeOfList [dirX, leafNode])).RmLink linkOk
        "x").2 = none
    ∧ emptyNode.Links = []
    ∧ (((NewDagEditor noFail noFail dirX (storeOfList [dirX, leafNode])).RmLink linkOk
        "x").1.InsertNodeAtPath linkOk "a" emptyNode none).2.2 = none
    ∧ emptyNode ∈ descendants
        (((NewDagEditor noFail noFail dirX (storeOfList [dirX, leafNode])).RmLink linkOk
          "x").1.InsertNodeAtPath linkOk "a" emptyNode none).1.GetNode
    ∧ present
        (((NewDagEditor noFail noFail dirX (storeOfList [dirX, leafNode])).RmLink linkOk
          "x").1.InsertNodeAtPath linkOk "a" emptyNode none).1.GetDagService
        (((NewDagEditor noFail noFail dirX (storeOfList [dirX, leafNode])).RmLink linkOk
          "x").1.InsertNodeAtPath linkOk "a" emptyNode none).1.src emptyNode = false := by
  decide

/-- C12: a successful `Finalize` returns the current root and adds to the target exactly
the nodes reachable from the root through chains of links whose targets the overlay
holds; the target of a link of a copied node that the overlay lacks stays out of the
target unless it was there before; every node the target held is still there.  Whenever
the overlay lookup of a link of such a reachable node fails otherwise than by absence,
`Finalize` returns the store failure. -/
theorem C12_finalize_copies_overlay_nodes (e : Editor) (ds : DAGService) :
    ((e.Finalize ds).2.err = none →
      (e.Finalize ds).1 = e.GetNode
      ∧ (∀ m, (e.Finalize ds).2.target.has m
          = (ds.has m || decide (m ∈ reach e.GetDagService e.GetNode)))
      ∧ (∀ m ∈ reach e.GetDagService e.GetNode, ∀ l ∈ m.Links,
          e.GetDagService.has l.2 = false → ds.has l.2 = false →
            (e.Finalize ds).2.target.has l.2 = false)
      ∧ (∀ m, ds.has m = true → (e.Finalize ds).2.target.has m = true))
    ∧ (∀ m ∈ reach e.GetDagService e.GetNode, ∀ l ∈ m.Links, ∀ err,
        e.GetDagService.Get l.2 = .error err → err ≠ Err.ErrNotFound →
          (e.Finalize ds).2.err = some err) := by
  simp only [Editor.Finalize, Editor.GetNode, Editor.GetDagService]
  constructor
  · intro h
    obtain ⟨h1, _, _, _⟩ := copyDag_ok e.tmp e.root ds h
    refine ⟨trivial, h1, ?_, ?_⟩
    · intro m hm l hl hno hds
      rw [h1 l.2, hds]
      have hnot : l.2 ∉ reach e.tmp e.root := by
        intro hin
        rcases reach_mem e.tmp e.root l.2 hin with hr | hr
        · have hw := link_weight m l hl
          rcases reach_mem e.tmp e.root m hm with hm2 | hm2
          · rw [hm2, hr] at hw
            omega
          · rw [hr] at hw
            omega
        · rw [hr.1] at hno
          simp at hno
      simp [hnot]
    · intro m hm
      rw [h1 m, hm]
      simp
  · intro m hm l hl err hget hne
    have herr : err = Err.storeFailure ∧ e.tmp.getFails l.2 = true := by
      unfold DAGService.Get at hget
      by_cases g : e.tmp.getFails l.2 = true
      · simp [g] at hget
        exact ⟨hget.symm, g⟩
      · by_cases t : e.tmp.has l.2 = true
        · simp [g, t] at hget
        · simp [g, t] at hget
          exact absurd hget.symm hne
    rw [herr.1]
    rcases (copyDag_grows e.tmp e.root ds).2 with h | h
    · obtain ⟨_, _, _, h4⟩ := copyDag_ok e.tmp e.root ds h
      have hg := h4 m hm l hl
      rw [herr.2] at hg
      simp at hg
    · exact h

/-- Witness for C12: after inserting `leafNode` at `a` into `dirX`, `Finalize` into an
empty store copies the new root and `leafNode`; the overlay of a second editor whose
lookup of `leafNode` fails makes `Finalize` fail. -/
theorem C12_finalize_copies_overlay_nodes_witness :
    (∀ m, (((NewDagEditor noFail noFail dirX (storeOfList [dirX, leafNode])).InsertNodeAtPath
          linkOk "a" leafNode none).1.Finalize DAGService.empty).2.target.has m
        = (DAGService.empty.has m || decide (m ∈ reach
            ((NewDagEditor noFail noFail dirX (storeOfList [dirX, leafNode])).InsertNodeAtPath
              linkOk "a" leafNode none).1.GetDagService
            ((NewDagEditor noFail noFail dirX (storeOfList [dirX, leafNode])).InsertNodeAtPath
              linkOk "a" leafNode none).1.GetNode)))
    ∧ ((⟨dirX, ⟨fun _ => false, noFail, fun _ => true⟩, DAGService.empty⟩ :
        Editor).Finalize DAGService.empty).2.err = some Err.storeFailure :=
  ⟨((C12_finalize_copies_overlay_nodes
      ((NewDagEditor noFail noFail dirX (storeOfList [dirX, leafNode])).InsertNodeAtPath
        linkOk "a" leafNode none).1 DAGService.empty).1 (by decide)).2.1,
   (C12_finalize_copies_overlay_nodes
      (⟨dirX, ⟨fun _ => false, noFail, fun _ => true⟩, DAGService.empty⟩ : Editor)
      DAGService.empty).2 dirX (by decide) ("x", leafNode) (by decide) Err.storeFailure
      rfl (by decide)⟩

/-- C13: evaluation at a failing input.  In the session of C11 the target store holds
every node of the source store.  `Finalize` succeeds, but the empty node, linked under
`a` in the returned root, is not in the overlay (it was evicted), is skipped by `copyDag`
and is not in the target store. -/
theorem C13_finalize_skips_evicted_node :
    (∀ m ∈ descendants dirX, m ≠ dirX → (storeOfList [dirX, leafNode]).has m = true)
    ∧ ((NewDagEditor noFail noFail dirX (storeOfList [dirX, leafNode])).RmLink linkOk
        "x").2 = none
    ∧ (((NewDagEditor noFail noFail dirX (storeOfList [dirX, leafNode])).RmLink linkOk
        "x").1.InsertNodeAtPath linkOk "a" emptyNode none).2.2 = none
    ∧ ((((NewDagEditor noFail noFail dirX (storeOfList [dirX, leafNode])).RmLink linkOk
        "x").1.InsertNodeAtPath linkOk "a" emptyNode none).1.Finalize
          (storeOfList [dirX, leafNode])).2.err = none
    ∧ emptyNode ∈ descendants
        ((((NewDagEditor noFail noFail dirX (storeOfList [dirX, leafNode])).RmLink linkOk
          "x").1.InsertNodeAtPath linkOk "a" emptyNode none).1.Finalize
            (storeOfList [dirX, leafNode])).1
    ∧ ((((NewDagEditor noFail noFail dirX (storeOfList [dirX, leafNode])).RmLink linkOk
        "x").1.InsertNodeAtPath linkOk "a" emptyNode none).1.Finalize
          (storeOfList [dirX, leafNode])).2.target.has emptyNode = false := by
  decide

/-- C14, as stated, fails for `Finalize`: when the store passed to `Finalize` is the
editor's own source store, the nodes of the session are added to it.  Here the source
store holds nothing before the call and holds `leafNode` after it. -/
theorem C14_counterexample_finalize_into_source :
    ((NewDagEditor noFail noFail emptyNode DAGService.empty).InsertNodeAtPath linkOk "a"
        leafNode none).2.2 = none
    ∧ ((NewDagEditor noFail noFail emptyNode DAGService.empty).InsertNodeAtPath linkOk "a"
        leafNode none).1.src.has leafNode = false
    ∧ ((NewDagEditor noFail noFail emptyNode DAGService.empty).InsertNodeAtPath linkOk "a"
        leafNode none).1.FinalizeIntoSource.2.2 = none
    ∧ ((NewDagEditor noFail noFail emptyNode DAGService.empty).InsertNodeAtPath linkOk "a"
        leafNode none).1.FinalizeIntoSource.1.src.has leafNode = true := by
  decide

/-- C14 (amended): `InsertNodeAtPath` and `RmLink`, successful or failing, leave the
source store as it was, and their outcome (error, callback count, root, overlay) depends
on the source store only through what `Get` returns for the link targets along the path.
`Finalize` does not read the source store.  When the source store itself is the store
passed to `Finalize`, root and overlay of the editor stay as they are, every node the
source store held is still in it, and after a successful `Finalize` it holds exactly its
previous nodes and the nodes reachable from the root through links whose targets the
overlay holds. -/
theorem C14_source_store_frame (linkErr : Node → Bool) (e : Editor) (pth : String)
    (X : Node) (create : Option (Nat → Node)) (ds : DAGService) :
    (e.InsertNodeAtPath linkErr pth X create).1.src = e.src
    ∧ (e.RmLink linkErr pth).1.src = e.src
    ∧ (∀ src2 : DAGService,
        (∀ k ∈ pathTargets create 0 e.GetNode (SplitList pth), src2.Get k = e.src.Get k) →
        ((⟨e.root, e.tmp, src2⟩ : Editor).InsertNodeAtPath linkErr pth X create).2
            = (e.InsertNodeAtPath linkErr pth X create).2
          ∧ ((⟨e.root, e.tmp, src2⟩ : Editor).InsertNodeAtPath linkErr pth X
              create).1.GetNode = (e.InsertNodeAtPath linkErr pth X create).1.GetNode
          ∧ ((⟨e.root, e.tmp, src2⟩ : Editor).InsertNodeAtPath linkErr pth X
              create).1.GetDagService
            = (e.InsertNodeAtPath linkErr pth X create).1.GetDagService)
    ∧ (∀ src2 : DAGService,
        (∀ k ∈ pathTargets none 0 e.GetNode (SplitList pth), src2.Get k = e.src.Get k) →
        ((⟨e.root, e.tmp, src2⟩ : Editor).RmLink linkErr pth).2 = (e.RmLink linkErr pth).2
          ∧ ((⟨e.root, e.tmp, src2⟩ : Editor).RmLink linkErr pth).1.GetNode
            = (e.RmLink linkErr pth).1.GetNode
          ∧ ((⟨e.root, e.tmp, src2⟩ : Editor).RmLink linkErr pth).1.GetDagService
            = (e.RmLink linkErr pth).1.GetDagService)
    ∧ (∀ src2 : DAGService, (⟨e.root, e.tmp, src2⟩ : Editor).Finalize ds = e.Finalize ds)
    ∧ e.FinalizeIntoSource.1.GetNode = e.GetNode
    ∧ e.FinalizeIntoSource.1.GetDagService = e.GetDagService
    ∧ (∀ m, e.src.has m = true → e.FinalizeIntoSource.1.src.has m = true)
    ∧ (e.FinalizeIntoSource.2.2 = none →
        ∀ m, e.FinalizeIntoSource.1.src.has m
          = (e.src.has m || decide (m ∈ reach e.GetDagService e.GetNode))) := by
  refine ⟨?_, ?_, ?_, ?_, ?_, rfl, rfl, ?_, ?_⟩
  · rw [InsertNodeAtPath_eq]
  · rw [RmLink_eq]
  · intro src2 h
    simp only [Editor.GetNode] at h
    simp only [InsertNodeAtPath_eq, Editor.GetNode, Editor.GetDagService]
    rw [insert_src_congr linkErr src2 e.src create X e.tmp (SplitList pth) 0 e.root h]
    exact ⟨rfl, rfl, rfl⟩
  · intro src2 h
    simp only [Editor.GetNode] at h
    simp only [RmLink_eq, Editor.GetNode, Editor.GetDagService]
    rw [rmLink_src_congr linkErr src2 e.src e.tmp (SplitList pth) e.root h]
    exact ⟨rfl, rfl, rfl⟩
  · intro src2
    rfl
  · intro m hm
    simp only [Editor.FinalizeIntoSource, Editor.Finalize, Editor.GetNode]
    exact (copyDag_grows e.tmp e.root e.src).1 m hm
  · intro h m
    simp only [Editor.FinalizeIntoSource, Editor.Finalize, Editor.GetNode,
      Editor.GetDagService] at h ⊢
    exact (copyDag_ok e.tmp e.root e.src h).1 m

/-- Witness for C14 (amended): on `dirA`, two source stores that both hold the node under
`a` but differ elsewhere give the same outcome for the edits at `a/b`; and `Finalize`
into the source store after inserting `leafNode` at `a` adds the new root and
`leafNode` to it. -/
theorem C14_source_store_frame_witness :
    ((⟨dirA, DAGService.empty, storeOfList [emptyNode, leafNode]⟩ :
        Editor).InsertNodeAtPath linkOk "a/b" leafNode none).2
      = ((⟨dirA, DAGService.empty, storeOf emptyNode⟩ : Editor).InsertNodeAtPath linkOk
          "a/b" leafNode none).2
    ∧ ((⟨dirA, DAGService.empty, storeOfList [emptyNode, leafNode]⟩ : Editor).RmLink linkOk
        "a/b").2
      = ((⟨dirA, DAGService.empty, storeOf emptyNode⟩ : Editor).RmLink linkOk "a/b").2
    ∧ (∀ m, ((NewDagEditor noFail noFail emptyNode DAGService.empty).InsertNodeAtPath
          linkOk "a" leafNode none).1.FinalizeIntoSource.1.src.has m
        = (((NewDagEditor noFail noFail emptyNode DAGService.empty).InsertNodeAtPath
            linkOk "a" leafNode none).1.src.has m
          || decide (m ∈ reach
            ((NewDagEditor noFail noFail emptyNode DAGService.empty).InsertNodeAtPath
              linkOk "a" leafNode none).1.GetDagService
            ((NewDagEditor noFail noFail emptyNode DAGService.empty).InsertNodeAtPath
              linkOk "a" leafNode none).1.GetNode))) :=
  ⟨((C14_source_store_frame linkOk (⟨dirA, DAGService.empty, storeOf emptyNode⟩ : Editor)
      "a/b" leafNode none DAGService.empty).2.2.1 (storeOfList [emptyNode, leafNode])
      (fun k hk => by
        have hk2 : k = emptyNode := by
          simpa [pathTargets, SplitList, splitAux, Editor.GetNode, dirA, Node.GetNodeLink,
            Node.Links] using hk
        subst hk2
        rfl)).1,
   ((C14_source_store_frame linkOk (⟨dirA, DAGService.empty, storeOf emptyNode⟩ : Editor)
      "a/b" leafNode none DAGService.empty).2.2.2.1 (storeOfList [emptyNode, leafNode])
      (fun k hk => by
        have hk2 : k = emptyNode := by
          simpa [pathTargets, SplitList, splitAux, Editor.GetNode, dirA, Node.GetNodeLink,
            Node.Links] using hk
        subst hk2
        rfl)).1,
   (C14_source_store_frame linkOk
      ((NewDagEditor noFail noFail emptyNode DAGService.empty).InsertNodeAtPath linkOk "a"
        leafNode none).1 "a" leafNode none DAGService.empty).2.2.2.2.2.2.2.2 (by decide)⟩

/-- For a path of the single component `name`, when neither the overlay's `Add` nor link
construction fails, `InsertNodeAtPath` succeeds if and only if `name` is not empty and
`RmLink` succeeds if and only if the root has a link named `name`; error and resulting
root are the same for every content of the overlay and every source store. -/
theorem single_component_outcome (linkErr : Node → Bool) (e : Editor) (name : String)
    (X : Node) (create : Option (Nat → Node))
    (hs : ∀ c ∈ name.toList, c ≠ '/')
    (hl : ∀ n, linkErr n = false)
    (ha : ∀ n, e.GetDagService.addFails n = false) :
    ((e.InsertNodeAtPath linkErr name X create).2.2 = none ↔ name ≠ "")
    ∧ ((e.RmLink linkErr name).2 = none ↔ ∃ l ∈ e.GetNode.Links, l.1 = name)
    ∧ (∀ e2 : Editor, e2.GetNode = e.GetNode →
        (∀ n, e2.GetDagService.addFails n = false) →
        (e2.InsertNodeAtPath linkErr name X create).2.2
            = (e.InsertNodeAtPath linkErr name X create).2.2
          ∧ (e2.InsertNodeAtPath linkErr name X create).1.GetNode
            = (e.InsertNodeAtPath linkErr name X create).1.GetNode
          ∧ (e2.RmLink linkErr name).2 = (e.RmLink linkErr name).2
          ∧ (e2.RmLink linkErr name).1.GetNode = (e.RmLink linkErr name).1.GetNode) := by
  simp only [Editor.GetDagService, Editor.GetNode] at ha ⊢
  simp only [InsertNodeAtPath_eq, RmLink_eq, SplitList_single name hs, insertNodeAtPath]
  have hins : ∀ (tmp : DAGService), (∀ n, tmp.addFails n = false) →
      (addLink linkErr tmp 0 e.root name X).err = (if name = "" then some Err.noName else none)
      ∧ (addLink linkErr tmp 0 e.root name X).root
        = (if name = "" then e.root
           else .mk (e.root.Links.filter (fun l => decide (l.1 ≠ name)) ++ [(name, X)])
             e.root.Data) := by
    intro tmp hta
    by_cases h0 : name = ""
    · simp [addLink, h0]
    · simp [addLink, h0, DAGService.Add, hta, Node.AddNodeLinkClean, hl, DAGService.Remove,
        Node.RemoveNodeLink, Node.Links, Node.Data]
  have hrm : ∀ (tmp src : DAGService), (∀ n, tmp.addFails n = false) →
      (rmLink linkErr src tmp e.root [name]).err
        = (if e.root.Links.any (fun l => decide (l.1 = name)) then none
           else some Err.ErrNotFound)
      ∧ (rmLink linkErr src tmp e.root [name]).root
        = .mk (e.root.Links.filter (fun l => decide (l.1 ≠ name))) e.root.Data := by
    intro tmp src hta
    by_cases h1 : e.root.Links.any (fun l => decide (l.1 = name)) = true
    · simp [rmLink, Node.RemoveNodeLink, DAGService.Add, hta] at h1 ⊢
      simp [h1]
    · simp [rmLink, Node.RemoveNodeLink] at h1 ⊢
      simp [h1]
  refine ⟨?_, ?_, ?_⟩
  · rw [(hins e.tmp ha).1]
    by_cases h0 : name = "" <;> simp [h0]
  · rw [(hrm e.tmp e.src ha).1]
    by_cases h1 : e.root.Links.any (fun l => decide (l.1 = name)) = true
    · simp only [h1, if_true, true_iff]
      rw [List.any_eq_true] at h1
      obtain ⟨l, hl1, hl2⟩ := h1
      exact ⟨l, hl1, by simpa using hl2⟩
    · simp only [h1]
      simp only [Bool.false_eq_true, if_false, false_iff]
      simp only [reduceCtorEq, false_iff]
      intro ⟨l, hl1, hl2⟩
      apply h1
      rw [List.any_eq_true]
      exact ⟨l, hl1, by simpa using hl2⟩
  · intro e2 hroot ha2
    rw [hroot]
    rw [(hins e.tmp ha).1, (hins e.tmp ha).2, (hins e2.tmp ha2).1, (hins e2.tmp ha2).2,
      (hrm e.tmp e.src ha).1, (hrm e.tmp e.src ha).2, (hrm e2.tmp e2.src ha2).1,
      (hrm e2.tmp e2.src ha2).2]
    simp

/-- C15: for a path of the single component `name` and an overlay whose `Add` never
fails, `InsertNodeAtPath` succeeds if and only if `name` is not empty and `RmLink`
succeeds if and only if the root has a link named `name`; error and resulting root do
not depend on what the overlay and the source store hold.  Link construction is that of
the spec (`linkOk`: `AddLink` is pure and has no error result). -/
theorem C15_single_component_outcome (e : Editor) (name : String)
    (X : Node) (create : Option (Nat → Node))
    (hs : ∀ c ∈ name.toList, c ≠ '/')
    (ha : ∀ n, e.GetDagService.addFails n = false) :
    ((e.InsertNodeAtPath linkOk name X create).2.2 = none ↔ name ≠ "")
    ∧ ((e.RmLink linkOk name).2 = none ↔ ∃ l ∈ e.GetNode.Links, l.1 = name)
    ∧ (∀ e2 : Editor, e2.GetNode = e.GetNode →
        (∀ n, e2.GetDagService.addFails n = false) →
        (e2.InsertNodeAtPath linkOk name X create).2.2
            = (e.InsertNodeAtPath linkOk name X create).2.2
          ∧ (e2.InsertNodeAtPath linkOk name X create).1.GetNode
            = (e.InsertNodeAtPath linkOk name X create).1.GetNode
          ∧ (e2.RmLink linkOk name).2 = (e.RmLink linkOk name).2
          ∧ (e2.RmLink linkOk name).1.GetNode = (e.RmLink linkOk name).1.GetNode) :=
  single_component_outcome linkOk e name X create hs (fun _ => rfl) ha

/-- Witness for C15: the name `a` on the root `dirA`; the insert succeeds, the removal
succeeds, and on the empty root with the empty name both fail. -/
theorem C15_single_component_outcome_witness :
    (((NewDagEditor noFail noFail dirA DAGService.empty).InsertNodeAtPath linkOk "a"
        leafNode none).2.2 = none ↔ "a" ≠ "")
    ∧ (((NewDagEditor noFail noFail dirA DAGService.empty).RmLink linkOk "a").2 = none
        ↔ ∃ l ∈ (NewDagEditor noFail noFail dirA DAGService.empty).GetNode.Links,
            l.1 = "a")
    ∧ ((NewDagEditor noFail noFail dirA DAGService.empty).InsertNodeAtPath linkOk "a"
        leafNode none).2.2 = none
    ∧ ((NewDagEditor noFail noFail dirA DAGService.empty).RmLink linkOk "a").2 = none
    ∧ ((NewDagEditor noFail noFail dirA DAGService.empty).InsertNodeAtPath linkOk ""
        leafNode none).2.2 ≠ none
    ∧ ((NewDagEditor noFail noFail dirA DAGService.empty).RmLink linkOk "b").2 ≠ none :=
  ⟨(C15_single_component_outcome (NewDagEditor noFail noFail dirA DAGService.empty)
      "a" leafNode none (by decide) (fun _ => rfl)).1,
   (C15_single_component_outcome (NewDagEditor noFail noFail dirA DAGService.empty)
      "a" leafNode none (by decide) (fun _ => rfl)).2.1,
   by decide, by decide, by decide, by decide⟩

/-- C16: evaluation at a failing input.  Inserting the empty node under `a` into the
empty root succeeds, and the inserted node is not in the store `GetDagService` returns:
`addLink` adds it and then removes the old root, which has the same identity. -/
theorem C16_inserted_node_not_in_overlay :
    ((NewDagEditor noFail noFail emptyNode DAGService.empty).InsertNodeAtPath linkOk "a"
        emptyNode none).2.2 = none
    ∧ ((NewDagEditor noFail noFail emptyNode DAGService.empty).InsertNodeAtPath linkOk "a"
        emptyNode none).1.GetDagService.has emptyNode = false
    ∧ ((NewDagEditor noFail noFail emptyNode DAGService.empty).InsertNodeAtPath linkOk "a"
        emptyNode none).1.GetDagService.Get emptyNode = .error Err.ErrNotFound
    ∧ ((NewDagEditor noFail noFail emptyNode DAGService.empty).InsertNodeAtPath linkOk "a"
        leafNode none).1.GetDagService.has leafNode = true :=
  ⟨by decide, by decide, rfl, by decide⟩

/-- C17: when every link followed during the descent has its target in the overlay,
`InsertNodeAtPath` and `RmLink` give the same error, root and overlay for every source
store.  When the overlay reports `ErrNotFound` for a linked child that the source store
returns, child resolution yields that child and the descent goes on in it. -/
theorem C17_overlay_first_then_source (linkErr : Node → Bool) (e : Editor) (pth : String)
    (X : Node) (create : Option (Nat → Node)) :
    (linksInOverlay e.GetDagService create 0 e.GetNode (SplitList pth) = true →
      ∀ src2 : DAGService,
        ((⟨e.root, e.tmp, src2⟩ : Editor).InsertNodeAtPath linkErr pth X create).2
            = (e.InsertNodeAtPath linkErr pth X create).2
          ∧ ((⟨e.root, e.tmp, src2⟩ : Editor).InsertNodeAtPath linkErr pth X
              create).1.GetNode = (e.InsertNodeAtPath linkErr pth X create).1.GetNode
          ∧ ((⟨e.root, e.tmp, src2⟩ : Editor).InsertNodeAtPath linkErr pth X
              create).1.GetDagService
            = (e.InsertNodeAtPath linkErr pth X create).1.GetDagService)
    ∧ (linksInOverlay e.GetDagService none 0 e.GetNode (SplitList pth) = true →
      ∀ src2 : DAGService,
        ((⟨e.root, e.tmp, src2⟩ : Editor).RmLink linkErr pth).2 = (e.RmLink linkErr pth).2
          ∧ ((⟨e.root, e.tmp, src2⟩ : Editor).RmLink linkErr pth).1.GetNode
            = (e.RmLink linkErr pth).1.GetNode
          ∧ ((⟨e.root, e.tmp, src2⟩ : Editor).RmLink linkErr pth).1.GetDagService
            = (e.RmLink linkErr pth).1.GetDagService)
    ∧ (∀ (tmp src : DAGService) (calls : Nat) (n k : Node) (c next : String)
        (rest : List String),
        n.GetNodeLink c = some k → tmp.Get k = .error Err.ErrNotFound → src.Get k = .ok k →
          insertChild tmp src create calls n c = (.ok k, calls)
          ∧ rmChild tmp src n c = .ok k
          ∧ insertNodeAtPath linkErr src create X tmp calls n (c :: next :: rest)
            = (match (insertNodeAtPath linkErr src create X tmp calls k
                  (next :: rest)).err with
                | some err =>
                  ⟨n, (insertNodeAtPath linkErr src create X tmp calls k (next :: rest)).tmp,
                    (insertNodeAtPath linkErr src create X tmp calls k (next :: rest)).calls,
                    some err⟩
                | none =>
                  relink linkErr
                    (insertNodeAtPath linkErr src create X tmp calls k (next :: rest)).tmp
                    (insertNodeAtPath linkErr src create X tmp calls k (next :: rest)).calls
                    n c (insertNodeAtPath linkErr src create X tmp calls k (next :: rest)).root)
          ∧ rmLink linkErr src tmp n (c :: next :: rest)
            = (match (rmLink linkErr src tmp k (next :: rest)).err with
                | some err => ⟨n, (rmLink linkErr src tmp k (next :: rest)).tmp, 0, some err⟩
                | none =>
                  relink linkErr (rmLink linkErr src tmp k (next :: rest)).tmp 0 n c
                    (rmLink linkErr src tmp k (next :: rest)).root)) := by
  refine ⟨?_, ?_, ?_⟩
  · intro h src2
    simp only [Editor.GetDagService, Editor.GetNode] at h ⊢
    simp only [InsertNodeAtPath_eq]
    rw [insert_src_indep linkErr src2 e.src create X e.tmp (SplitList pth) 0 e.root h]
    exact ⟨rfl, rfl, rfl⟩
  · intro h src2
    simp only [Editor.GetDagService, Editor.GetNode] at h ⊢
    simp only [RmLink_eq]
    rw [rmLink_src_indep linkErr src2 e.src e.tmp (SplitList pth) e.root h]
    exact ⟨rfl, rfl, rfl⟩
  · intro tmp src calls n k c next rest hl ht hs
    have hrm : rmChild tmp src n c = .ok k := by
      simp [rmChild, Node.GetLinkedNode, hl, ht, hs]
    have hins := insertChild_of_rmChild tmp src create calls n c k hrm
    refine ⟨hins, hrm, ?_, ?_⟩
    · rw [insertNodeAtPath_cons _ _ _ _ _ _ _ _ _ (by simp), hins]
    · rw [rmLink_cons _ _ _ _ _ _ (by simp), hrm]

/-- Witness for C17: on `dirAB` with the node under `a` held by the overlay, the edits at
`a/b` do not depend on the source store. -/
theorem C17_overlay_first_then_source_witness :
    ((⟨dirAB, storeOf (.mk [("b", leafNode)] []), storeOf leafNode⟩ :
        Editor).InsertNodeAtPath linkOk "a/b" emptyNode none).2
      = ((⟨dirAB, storeOf (.mk [("b", leafNode)] []), DAGService.empty⟩ :
        Editor).InsertNodeAtPath linkOk "a/b" emptyNode none).2
    ∧ ((⟨dirAB, storeOf (.mk [("b", leafNode)] []), storeOf leafNode⟩ : Editor).RmLink
        linkOk "a/b").2
      = ((⟨dirAB, storeOf (.mk [("b", leafNode)] []), DAGService.empty⟩ : Editor).RmLink
        linkOk "a/b").2 :=
  ⟨((C17_overlay_first_then_source linkOk
      (⟨dirAB, storeOf (.mk [("b", leafNode)] []), DAGService.empty⟩ : Editor) "a/b"
      emptyNode none).1 (by decide) (storeOf leafNode)).1,
   ((C17_overlay_first_then_source linkOk
      (⟨dirAB, storeOf (.mk [("b", leafNode)] []), DAGService.empty⟩ : Editor) "a/b"
      emptyNode none).2.1 (by decide) (storeOf leafNode)).1⟩

/-- C18: when neither the overlay's `Add` nor link construction fails, a call of
`InsertNodeAtPath` or `RmLink` that returns an error leaves the staging overlay exactly
as it was before the call. -/
theorem C18_failed_call_keeps_overlay (linkErr : Node → Bool) (e : Editor) (pth : String)
    (X : Node) (create : Option (Nat → Node))
    (hl : ∀ n, linkErr n = false)
    (ha : ∀ n, e.GetDagService.addFails n = false) :
    ((e.InsertNodeAtPath linkErr pth X create).2.2 ≠ none →
      (e.InsertNodeAtPath linkErr pth X create).1.GetDagService = e.GetDagService)
    ∧ ((e.RmLink linkErr pth).2 ≠ none →
      (e.RmLink linkErr pth).1.GetDagService = e.GetDagService) := by
  simp only [Editor.GetDagService] at ha ⊢
  simp only [InsertNodeAtPath_eq, RmLink_eq]
  constructor
  · intro h
    exact insert_error_keeps_tmp linkErr e.src create X hl _ e.tmp 0 e.root ha h
  · intro h
    exact rmLink_error_keeps_tmp linkErr e.src hl _ e.tmp e.root ha h

/-- Witness for C18: on `dirA`, inserting at `a/b/c` without a callback fails on the
missing link `b` and removing `missing` fails; the overlay is as before. -/
theorem C18_failed_call_keeps_overlay_witness :
    ((NewDagEditor noFail noFail dirA (storeOf emptyNode)).InsertNodeAtPath linkOk "a/b/c"
        leafNode none).1.GetDagService
      = (NewDagEditor noFail noFail dirA (storeOf emptyNode)).GetDagService
    ∧ ((NewDagEditor noFail noFail dirA (storeOf emptyNode)).RmLink linkOk
        "missing").1.GetDagService
      = (NewDagEditor noFail noFail dirA (storeOf emptyNode)).GetDagService :=
  ⟨(C18_failed_call_keeps_overlay linkOk (NewDagEditor noFail noFail dirA (storeOf emptyNode))
      "a/b/c" leafNode none (fun _ => rfl) (fun _ => rfl)).1 (by decide),
   (C18_failed_call_keeps_overlay linkOk (NewDagEditor noFail noFail dirA (storeOf emptyNode))
      "missing" leafNode none (fun _ => rfl) (fun _ => rfl)).2 (by decide)⟩

end dagutils
